import Mathlib

/-!
# Kanonic — verified shallow embedding

A shallow embedding (in Lean 4) of the per-call execution pipeline and the
SSE stream decoder of the `kanonic` typed HTTP client
(`packages/kanonic/src/core.ts`, `packages/kanonic/src/utils.ts`,
`packages/kanonic/src/errors.ts`, `packages/kanonic/src/types.ts`), together
with theorems settling the specification claims about it.

Modelling conventions:
* JavaScript values flowing through the pipeline (JSON-parsed bodies, schema
  inputs, passthrough request options) are modelled by the inductive `Json`.
  Arrays and objects are encoded with their own cons spine (`arrNil`/`arrCons`,
  `objNil`/`objCons`) — isomorphic to the usual nested-list form — so that
  decidable equality can be derived.
* Body / payload text is modelled as `List Char` (`Str`).  `TextDecoder`
  byte-to-text decoding is an external primitive and is not modelled: chunks
  enter the embedding as already-decoded text.
* `JSON.parse` / `JSON.stringify` are external JS primitives; the pipeline is
  parametrised over a `jsonParse : Str → Option Json` oracle (`none` models a
  thrown `SyntaxError`, caught by `safeJsonParse`).
* Zod schemas are opaque per the spec's validation contract: a `Schema` is a
  `safeParse : Json → Option Json` function (`some` = success carrying the
  transformed data, `none` = failure).
* The `fetch` transport is an opaque possibly-throwing I/O call; it is
  modelled as an oracle `Nat → Except String Response` indexed by the number
  of transport invocations already made in this call (`Except.error msg`
  models a rejected promise, caught by `safeFetch` into a `FetchError`).
* Promise rejections escaping a plugin hook (exceptions crossing the public
  boundary) are modelled by `Except Exn`; numbers are modelled by `Nat`/`Int`
  (all claim-relevant arithmetic is exact integer arithmetic, on which IEEE
  doubles agree).
-/

/-- Body / payload text (a JS string), as a list of characters. -/
abbrev Str := List Char

/-- A JS exception value crossing the public boundary (opaque; message only). -/
abbrev Exn := String

/-- JS values as produced by `JSON.parse` plus `undefined` (which can reach
schema validation through an absent `schemaOptions` field).  Arrays and
objects carry their elements on a cons spine. -/
inductive Json where
  | undefined
  | null
  | bool (b : Bool)
  | num (n : Int)
  | str (s : Str)
  | arrNil
  | arrCons (hd : Json) (tl : Json)
  | objNil
  | objCons (key : String) (val : Json) (tl : Json)
  deriving DecidableEq, Repr

/-- JS truthiness test (`!v` in `processStreamChunk`): `undefined`, `null`,
`false`, `0` and the empty string are falsy; arrays and objects (even empty)
are truthy. -/
def Json.falsy : Json → Bool
  | .undefined => true
  | .null => true
  | .bool b => !b
  | .num n => n == 0
  | .str s => s.isEmpty
  | _ => false

/-- The validation capability (spec §6): an opaque `safeParse` returning
success with the (possibly transformed) data, or failure.  The zod issues
attached to failures are opaque to the core and are not modelled. -/
structure Schema where
  safeParse : Json → Option Json

/-- `z.unknown()` — the schema substituted in `buildEndpointFn` when an
endpoint declares no output schema; accepts every value unchanged. -/
def Schema.unknown : Schema := ⟨fun v => some v⟩

-- ─── errors.ts ───────────────────────────────────────────────────────────────

/-- The `ApiError` payload (`errors.ts`): status code, raw text (always
present), optionally schema-validated structured data. -/
structure ApiErrorR where
  statusCode : Nat
  text : Str
  data : Option Json
  deriving DecidableEq, Repr

/-- The closed error taxonomy (`errors.ts`), discriminated by `_tag`.
Validation errors carry their message; the attached `zodError` issues are
opaque and not modelled. -/
inductive Err where
  | fetchError (message : String)
  | apiError (e : ApiErrorR)
  | parseError (message : String)
  | outputValidationError (message : String)
  | inputValidationError (message : String)
  deriving DecidableEq, Repr

-- ─── utils.ts: small pure helpers ────────────────────────────────────────────

/-- HTTP verbs (`types.ts` `Method`). -/
inductive Method where
  | GET | POST | PUT | PATCH | DELETE
  deriving DecidableEq, Repr

/-- `RetryOptions` (`types.ts`): retry count (not counting the first
attempt), base delay, backoff curve, optional retry predicate. -/
inductive Backoff where
  | linear | constant | exponential
  deriving DecidableEq, Repr

structure RetryOptions where
  times : Nat
  delayMs : Nat
  backoff : Backoff
  shouldRetry : Option (Err → Bool)

/-- `utils.ts` `getRetryDelay`: backoff delay for the zero-indexed retry
`attemptIndex`.  The `default` branch of the `switch` covers `constant`. -/
def getRetryDelay (retry : RetryOptions) (attemptIndex : Nat) : Nat :=
  match retry.backoff with
  | .linear => retry.delayMs * (attemptIndex + 1)
  | .exponential => retry.delayMs * 2 ^ attemptIndex
  | .constant => retry.delayMs

/-- `utils.ts` `isRetriableError`: only `FetchError` and `ApiError` are
retriable. -/
def isRetriableError : Err → Bool
  | .fetchError _ => true
  | .apiError _ => true
  | _ => false

-- ─── utils.ts: SSE line handling ─────────────────────────────────────────────

/-- JS `String.prototype.trim` on the claim-relevant (ASCII) whitespace. -/
def strTrim (s : Str) : Str :=
  (s.dropWhile Char.isWhitespace).reverse.dropWhile Char.isWhitespace |>.reverse

/-- `utils.ts` `extractDataLine`: trim the line, keep only `data:`-prefixed
lines, strip the prefix and trim the payload, and discard empty payloads and
the `[DONE]` sentinel. -/
def extractDataLine (line : Str) : Option Str :=
  let trimmed := strTrim line
  if ¬ ("data:".toList.isPrefixOf trimmed) then none
  else
    let dataContent := strTrim (trimmed.drop 5)
    if dataContent.isEmpty ∨ dataContent = "[DONE]".toList then none
    else some dataContent

/-- A value enqueued to the stream consumer: the raw payload text when no
output schema is configured, otherwise a parsed (and possibly
schema-transformed) JSON value. -/
inductive StreamItem where
  | raw (s : Str)
  | js (v : Json)
  deriving DecidableEq, Repr

/-- `utils.ts` `processStreamChunk`: without an output schema the raw payload
is returned as-is.  With a schema the payload is JSON-parsed (parse failure →
`null`, i.e. `none`); a falsy parsed value fails the `!processedData` check
and is likewise discarded; with validation enabled the value is then
schema-validated (failure → discarded). -/
def processStreamChunk (jsonParse : Str → Option Json) (dataContent : Str)
    (outputSchema : Option Schema) (validateOutput : Bool) : Option StreamItem :=
  match outputSchema with
  | none => some (.raw dataContent)
  | some schema =>
    let processedData := match jsonParse dataContent with
      | none => Json.null
      | some d => d
    if processedData.falsy then none
    else if validateOutput then
      match schema.safeParse processedData with
      | none => none
      | some data => some (.js data)
    else some (.js processedData)

-- ─── core.ts: SSE stream decoder (handleStreamResponse pull loop) ────────────

/-- JS `String.prototype.split("\n")`: the list of newline-separated
fragments (never empty; empty fragments are kept). -/
def splitNl : Str → List Str
  | [] => [[]]
  | c :: cs =>
    if c = '\n' then [] :: splitNl cs
    else
      match splitNl cs with
      | [] => [[c]]
      | l :: ls => (c :: l) :: ls

/-- The decoder state across `pull` invocations: the retained (possibly
incomplete) trailing line fragment, and the values enqueued so far, oldest
first. -/
structure SSEState where
  buffer : Str
  emitted : List StreamItem
  deriving DecidableEq, Repr

def SSEState.init : SSEState := ⟨[], []⟩

/-- One completed line through `extractDataLine` and `processStreamChunk`
(the body of the two identical `for` loops in `handleStreamResponse`);
`none` when nothing is enqueued for this line. -/
def processLine (jsonParse : Str → Option Json) (outputSchema : Option Schema)
    (validateOutput : Bool) (line : Str) : Option StreamItem :=
  match extractDataLine line with
  | none => none
  | some dataContent => processStreamChunk jsonParse dataContent outputSchema validateOutput

/-- The non-`done` branch of `pull` in `handleStreamResponse`: append the
decoded chunk to the buffer, split on newline, retain the last (possibly
incomplete) fragment, and process every completed line in order. -/
def feedChunk (jsonParse : Str → Option Json) (outputSchema : Option Schema)
    (validateOutput : Bool) (st : SSEState) (chunk : Str) : SSEState :=
  let lines := splitNl (st.buffer ++ chunk)
  let buffer := lines.getLast? |>.getD []
  let completed := lines.dropLast
  { buffer := buffer
    emitted := st.emitted ++ completed.filterMap (processLine jsonParse outputSchema validateOutput) }

/-- Feed a whole sequence of chunks. -/
def feedAll (jsonParse : Str → Option Json) (outputSchema : Option Schema)
    (validateOutput : Bool) (st : SSEState) (chunks : List Str) : SSEState :=
  chunks.foldl (feedChunk jsonParse outputSchema validateOutput) st

/-- The `done` branch of `pull`: if the remaining buffer is non-blank, split
it on newline and process each line identically, then close.  Returns the
values enqueued by this final flush. -/
def flushStream (jsonParse : Str → Option Json) (outputSchema : Option Schema)
    (validateOutput : Bool) (st : SSEState) : List StreamItem :=
  if (strTrim st.buffer).isEmpty then []
  else (splitNl st.buffer).filterMap (processLine jsonParse outputSchema validateOutput)

/-- All values the stream ever enqueues for a given chunk sequence: those
emitted while chunks arrive plus those from the end-of-stream flush. -/
def decodeStream (jsonParse : Str → Option Json) (outputSchema : Option Schema)
    (validateOutput : Bool) (chunks : List Str) : List StreamItem :=
  let st := feedAll jsonParse outputSchema validateOutput SSEState.init chunks
  st.emitted ++ flushStream jsonParse outputSchema validateOutput st

-- ─── utils.ts: parseErrorResponse ────────────────────────────────────────────

/-- `utils.ts` `parseErrorResponse`: build the `ApiError` for an error-status
body.  With no error schema, or when the `shouldValidateError` predicate is
absent (the code defaults `shouldValidate` to `false`) or returns `false`
for this status, only the raw text is carried.  Otherwise the body is
JSON-parsed and schema-validated, falling back to the raw-text-only error on
either failure. -/
def parseErrorResponse (jsonParse : Str → Option Json) (text : Str)
    (statusCode : Nat) (errorSchema : Option Schema)
    (shouldValidateError : Option (Nat → Bool)) : ApiErrorR :=
  match errorSchema with
  | none => ⟨statusCode, text, none⟩
  | some schema =>
    let shouldValidate := match shouldValidateError with
      | some f => f statusCode
      | none => false
    if shouldValidate = false then ⟨statusCode, text, none⟩
    else
      match jsonParse text with
      | none => ⟨statusCode, text, none⟩
      | some json =>
        match schema.safeParse json with
        | some data => ⟨statusCode, text, some data⟩
        | none => ⟨statusCode, text, none⟩

-- ─── Request/response data model ─────────────────────────────────────────────

/-- A header map as a sequence of assignments; on lookup the latest
assignment for a key wins, which is exactly the observable semantics of the
JS object-spread merge in `buildEndpointFn`. -/
abbrev HeaderMap := List (String × String)

/-- Lookup in a `HeaderMap`: value of the last assignment to `k`, if any. -/
def hGet (m : HeaderMap) (k : String) : Option String :=
  (m.filter (fun kv => kv.1 = k)).getLast? |>.map (fun kv => kv.2)

instance {ε α : Type} [DecidableEq ε] [DecidableEq α] : DecidableEq (Except ε α) := fun a b =>
  match a, b with
  | .ok x, .ok y => if h : x = y then .isTrue (by rw [h]) else .isFalse (by simp [h])
  | .error x, .error y => if h : x = y then .isTrue (by rw [h]) else .isFalse (by simp [h])
  | .ok _, .error _ => .isFalse (by simp)
  | .error _, .ok _ => .isFalse (by simp)

/-- A Response-like transport result (spec §6): status code, the outcome of
`text()` (which may reject), and the byte stream as decoded text chunks
(`none` models a `null` body). -/
structure Response where
  status : Nat
  textResult : Except String Str
  bodyChunks : Option (List Str)
  deriving DecidableEq, Repr

/-- `Response.ok`: status in the 2xx range. -/
def Response.ok (r : Response) : Bool := 200 ≤ r.status ∧ r.status ≤ 299

/-- `new Response()` — the initial value of `lastResponse` in
`buildEndpointFn` (status 200, empty body). -/
def Response.default : Response := ⟨200, .ok [], none⟩

/-- The mutable request context threaded through the plugin chain
(`types` `RequestContext`): resolved URL, method, header map, body, plus the
open-ended bag of passthrough transport fields. -/
structure RequestContext where
  url : String
  method : Method
  headers : HeaderMap
  body : Option Str
  rest : List (String × Json)
  deriving DecidableEq, Repr

/-- The merged `RequestInit` handed to plugin `init` (its `method`,
`headers` and `body` fields are destructured back with `??` defaults in
`buildEndpointFn`). -/
structure RequestInitR where
  method : Option Method
  headers : Option HeaderMap
  body : Option Str
  rest : List (String × Json)
  deriving DecidableEq, Repr

/-- One transport invocation as recorded for the claims: the arguments
`safeFetch` receives. -/
structure FetchCall where
  url : String
  method : Method
  headers : HeaderMap
  body : Option Str
  rest : List (String × Json)
  deriving DecidableEq, Repr

/-- A successful call value: the decoded JSON body, or (for streaming
endpoints) the lazy sequence — modelled by the full list of values it
enqueues. -/
inductive SuccessVal where
  | json (v : Json)
  | stream (items : List StreamItem)
  deriving DecidableEq, Repr

/-- A value occupying one parameter slot of a plugin hook invocation
(JS call semantics: a parameter with no corresponding argument is
`undefined`). -/
inductive HookVal where
  | undefined
  | resp (r : Response)
  | val (v : SuccessVal)
  deriving DecidableEq, Repr

-- ─── Plugins ─────────────────────────────────────────────────────────────────

/-- The optional lifecycle hooks of a plugin (`Plugin.hooks`, declared in the
kanonic-v2 `PROMPT.md` interface).  `onSuccess` has the three parameters
`(ctx, response, data)` of its declaration; each hook may throw
(`Except.error`). -/
structure PluginHooks where
  onRequest : Option (RequestContext → Except Exn RequestContext) := none
  onResponse : Option (RequestContext → Response → Except Exn Response) := none
  onSuccess : Option (RequestContext → HookVal → HookVal → Except Exn Unit) := none
  onError : Option (RequestContext → Err → Except Exn Unit) := none
  onRetry : Option (RequestContext → Err → Except Exn Unit) := none

/-- A plugin: identity, optional `init` (once per call), optional hooks.
`hooks?.x` accesses are modelled by the `Option`-valued fields. -/
structure Plugin where
  id : String
  name : String
  version : String
  init : Option (String → RequestInitR → Except Exn (String × RequestInitR)) := none
  hooks : PluginHooks := {}

-- ─── utils.ts: plugin pipeline runners ───────────────────────────────────────

/-- `utils.ts` `runPluginInit`: thread `{url, options}` through each
plugin's `init` in registration order.  Exceptions are **not** caught here —
they propagate to the caller. -/
def runPluginInit (plugins : List Plugin) (url : String) (options : RequestInitR) :
    Except Exn (String × RequestInitR) :=
  match plugins with
  | [] => .ok (url, options)
  | p :: ps =>
    match p.init with
    | none => runPluginInit ps url options
    | some f =>
      match f url options with
      | .error exn => .error exn
      | .ok (u, o) => runPluginInit ps u o

/-- `utils.ts` `runOnRequest`: thread the request context through each
plugin's `onRequest` hook in order.  Exceptions are **not** caught. -/
def runOnRequest (plugins : List Plugin) (ctx : RequestContext) :
    Except Exn RequestContext :=
  match plugins with
  | [] => .ok ctx
  | p :: ps =>
    match p.hooks.onRequest with
    | none => runOnRequest ps ctx
    | some h =>
      match h ctx with
      | .error exn => .error exn
      | .ok c => runOnRequest ps c

/-- `utils.ts` `runOnResponse`: thread the raw response through each
plugin's `onResponse` hook in order.  Exceptions are **not** caught. -/
def runOnResponse (plugins : List Plugin) (ctx : RequestContext) (response : Response) :
    Except Exn Response :=
  match plugins with
  | [] => .ok response
  | p :: ps =>
    match p.hooks.onResponse with
    | none => runOnResponse ps ctx response
    | some h =>
      match h ctx response with
      | .error exn => .error exn
      | .ok r => runOnResponse ps ctx r

/-- The `try { … } catch { /* swallow */ }` around an observer hook: the
hook's outcome — normal or thrown — is discarded. -/
def swallow : Except Exn Unit → Unit
  | .ok _ => ()
  | .error _ => ()

/-- `utils.ts` `runOnSuccess(plugins, ctx, data)`: invoke each plugin's
`onSuccess` hook in order with the **two-argument** call `onSuccess(ctx,
data)`, swallowing exceptions.  A hook declared with the interface's three
parameters `(ctx, response, data)` therefore receives `undefined` for its
third parameter.  Returns the list of argument triples the hooks received,
in invocation order. -/
def runOnSuccess (plugins : List Plugin) (ctx : RequestContext) (data : HookVal) :
    List (RequestContext × HookVal × HookVal) :=
  match plugins with
  | [] => []
  | p :: ps =>
    match p.hooks.onSuccess with
    | none => runOnSuccess ps ctx data
    | some h =>
      let _ := swallow (h ctx data .undefined)
      (ctx, data, .undefined) :: runOnSuccess ps ctx data

/-- `utils.ts` `runOnError`: invoke each plugin's `onError` hook in order
with `(ctx, error)`, swallowing exceptions.  Returns the received argument
pairs in invocation order. -/
def runOnError (plugins : List Plugin) (ctx : RequestContext) (error : Err) :
    List (RequestContext × Err) :=
  match plugins with
  | [] => []
  | p :: ps =>
    match p.hooks.onError with
    | none => runOnError ps ctx error
    | some h =>
      let _ := swallow (h ctx error)
      (ctx, error) :: runOnError ps ctx error

/-- `utils.ts` `runOnRetry`: invoke each plugin's `onRetry` hook in order
with `(ctx, error)`, swallowing exceptions.  Returns the received argument
pairs in invocation order. -/
def runOnRetry (plugins : List Plugin) (ctx : RequestContext) (error : Err) :
    List (RequestContext × Err) :=
  match plugins with
  | [] => []
  | p :: ps =>
    match p.hooks.onRetry with
    | none => runOnRetry ps ctx error
    | some h =>
      let _ := swallow (h ctx error)
      (ctx, error) :: runOnRetry ps ctx error

-- ─── Observable side effects of one call ─────────────────────────────────────

/-- The externally observable side effects of one call, in order within each
kind: transport invocations, retry sleeps (ms), and the argument lists
received by the observer hooks. -/
structure Trace where
  fetches : List FetchCall := []
  sleeps : List Nat := []
  successCalls : List (RequestContext × HookVal × HookVal) := []
  errorCalls : List (RequestContext × Err) := []
  retryCalls : List (RequestContext × Err) := []
  deriving DecidableEq, Repr

def Trace.app (t u : Trace) : Trace :=
  ⟨t.fetches ++ u.fetches, t.sleeps ++ u.sleeps, t.successCalls ++ u.successCalls,
   t.errorCalls ++ u.errorCalls, t.retryCalls ++ u.retryCalls⟩

instance : Append Trace := ⟨Trace.app⟩

-- ─── core.ts: response handlers ──────────────────────────────────────────────

/-- `core.ts` `handleJsonResponse`: read the body text (failure →
`ParseError`); on a non-2xx status delegate to `parseErrorResponse`;
otherwise JSON-parse (failure → `ParseError`), then — when output validation
is enabled — schema-validate (failure → `OutputValidationError`). -/
def handleJsonResponse (jsonParse : Str → Option Json) (response : Response)
    (outputSchema : Schema) (validateOutput : Bool) (errorSchema : Option Schema)
    (shouldValidateError : Option (Nat → Bool)) : Except Err Json :=
  match response.textResult with
  | .error msg => .error (.parseError msg)
  | .ok text =>
    if response.ok = false then
      .error (.apiError (parseErrorResponse jsonParse text response.status errorSchema shouldValidateError))
    else
      match jsonParse text with
      | none => .error (.parseError "Failed to parse JSON")
      | some json =>
        if validateOutput = false then .ok json
        else
          match outputSchema.safeParse json with
          | none => .error (.outputValidationError "The output from the api was invalid")
          | some data => .ok data

/-- `core.ts` `handleStreamResponse`: on a non-2xx status read the body text
and delegate to `parseErrorResponse` (the byte stream is never opened);
otherwise, a `null` body is a `ParseError`, and the byte reader is handed to
the SSE decoder, whose enqueued values form the success value. -/
def handleStreamResponse (jsonParse : Str → Option Json) (response : Response)
    (outputSchema : Option Schema) (validateOutput : Bool) (errorSchema : Option Schema)
    (shouldValidateError : Option (Nat → Bool)) : Except Err SuccessVal :=
  if response.ok = false then
    match response.textResult with
    | .error msg => .error (.parseError msg)
    | .ok text =>
      .error (.apiError (parseErrorResponse jsonParse text response.status errorSchema shouldValidateError))
  else
    match response.bodyChunks with
    | none => .error (.parseError "Response body is null")
    | some chunks => .ok (.stream (decodeStream jsonParse outputSchema validateOutput chunks))

-- ─── core.ts: validateSchemaOptions ──────────────────────────────────────────

/-- Endpoint-level request option overrides (`retry` is excluded at the type
level, `types.ts` `BaseEndpoint.requestOptions`). -/
structure EndpointRequestOptions where
  headers : Option HeaderMap := none
  rest : List (String × Json) := []

/-- An endpoint descriptor (`types.ts` `Endpoint`).  `streamEnabled` models
`stream?.enabled`; `input` is only ever declared on non-GET endpoints but the
runtime check in `validateSchemaOptions` re-tests the method. -/
structure Endpoint where
  method : Method
  path : String
  params : Option Schema := none
  query : Option Schema := none
  input : Option Schema := none
  output : Option Schema := none
  streamEnabled : Bool := false
  requestOptions : Option EndpointRequestOptions := none

/-- The raw per-call schema options (`input`/`params`/`query`); an absent
field is `undefined`. -/
structure SchemaOpts where
  input : Json := .undefined
  params : Json := .undefined
  query : Json := .undefined

/-- The validated values produced by `validateSchemaOptions`. -/
structure ValidatedOpts where
  input : Json
  params : Json
  query : Json
  deriving DecidableEq, Repr

/-- `core.ts` `validateSchemaOptions`: validate `input` (only when input
validation is on, the verb is not GET, and an input schema is declared),
then `params`, then `query`, returning the first failure as an
`InputValidationError` and otherwise the validated values. -/
def rawInputOf (schemaOptions : Option SchemaOpts) : Json :=
  (schemaOptions.map (fun so => so.input)).getD .undefined

def rawParamsOf (schemaOptions : Option SchemaOpts) : Json :=
  (schemaOptions.map (fun so => so.params)).getD .undefined

def rawQueryOf (schemaOptions : Option SchemaOpts) : Json :=
  (schemaOptions.map (fun so => so.query)).getD .undefined

def validateSchemaOptions (endpoint : Endpoint) (schemaOptions : Option SchemaOpts)
    (validateInput : Bool) : Except Err ValidatedOpts :=
  let rawInput := rawInputOf schemaOptions
  let rawParams := rawParamsOf schemaOptions
  let rawQuery := rawQueryOf schemaOptions
  let inputStep : Except Err Json :=
    match endpoint.input with
    | some s =>
      if validateInput && decide (endpoint.method ≠ .GET) then
        match s.safeParse rawInput with
        | none => .error (.inputValidationError "Invalid input")
        | some d => .ok d
      else .ok rawInput
    | none => .ok rawInput
  match inputStep with
  | .error e => .error e
  | .ok validatedInput =>
    let paramsStep : Except Err Json :=
      match endpoint.params with
      | some s =>
        if validateInput then
          match s.safeParse rawParams with
          | none => .error (.inputValidationError "Invalid params")
          | some d => .ok d
        else .ok rawParams
      | none => .ok rawParams
    match paramsStep with
    | .error e => .error e
    | .ok validatedParams =>
      let queryStep : Except Err Json :=
        match endpoint.query with
        | some s =>
          if validateInput then
            match s.safeParse rawQuery with
            | none => .error (.inputValidationError "Invalid query")
            | some d => .ok d
          else .ok rawQuery
        | none => .ok rawQuery
      match queryStep with
      | .error e => .error e
      | .ok validatedQuery => .ok ⟨validatedInput, validatedParams, validatedQuery⟩

-- ─── utils.ts: buildUrl and body serialisation ───────────────────────────────

/-- `Object.entries` on an object spine (empty for non-objects). -/
def Json.entries : Json → List (String × Json)
  | .objCons k v tl => (k, v) :: tl.entries
  | _ => []

/-- `Array.isArray` plus the elements of an array spine. -/
def Json.items : Json → Option (List Json)
  | .arrNil => some []
  | .arrCons h tl => some (h :: (tl.items.getD []))
  | _ => none

/-- JS `v.toString()` for the values reaching URL interpolation
(claim-irrelevant; array elements comma-join as in JS). -/
def jsToString : Json → String
  | .undefined => "undefined"
  | .null => "null"
  | .bool b => if b then "true" else "false"
  | .num n => toString n
  | .str s => String.mk s
  | .arrNil => ""
  | .arrCons h tl =>
    jsToString h ++ (if tl = .arrNil then "" else "," ++ jsToString tl)
  | .objNil => "[object Object]"
  | .objCons _ _ _ => "[object Object]"

/-- JS `String.prototype.replace` with a string pattern: replace the first
occurrence only. -/
def replaceFirst (s pat rep : Str) : Str :=
  match s with
  | [] => []
  | c :: cs =>
    if pat.isPrefixOf (c :: cs) then rep ++ (c :: cs).drop pat.length
    else c :: replaceFirst cs pat rep

/-- `utils.ts` `buildUrl`: strip one trailing slash from the base, substitute
`:name` placeholders with the (stringified) params (entries with
`null`/`undefined` values are filtered out first), and append the query
string (array values become repeated keys; `null`/`undefined` entries are
omitted).  `new URL` percent-encoding/canonicalisation is an external
primitive and is not modelled. -/
def buildUrl (baseUrl : String) (path : String) (query params : Json) : String :=
  let base := if baseUrl.toList.getLast? = some '/'
    then String.mk baseUrl.toList.dropLast else baseUrl
  let qpairs := (query.entries.filter
      (fun kv => kv.2 ≠ Json.null ∧ kv.2 ≠ Json.undefined)).flatMap
    (fun kv => match kv.2.items with
      | some xs => xs.map (fun item => (kv.1, jsToString item))
      | none => [(kv.1, jsToString kv.2)])
  let pathSub := (params.entries.filter
      (fun kv => kv.2 ≠ Json.null ∧ kv.2 ≠ Json.undefined)).foldl
    (fun p kv => replaceFirst p (':' :: kv.1.toList) (jsToString kv.2).toList)
    path.toList
  let qs := String.intercalate "&" (qpairs.map (fun kv => kv.1 ++ "=" ++ kv.2))
  base ++ String.mk pathSub ++ (if qpairs.isEmpty then "" else "?" ++ qs)

mutual
/-- `JSON.stringify` on defined values (string escaping not modelled —
claim-irrelevant; `undefined` inside arrays serialises as `null`). -/
def stringifyVal : Json → Str
  | .undefined => "null".toList
  | .null => "null".toList
  | .bool b => (if b then "true" else "false").toList
  | .num n => (toString n).toList
  | .str s => '"' :: (s ++ ['"'])
  | .arrNil => "[]".toList
  | .arrCons h tl => '[' :: (stringifyVal h ++ stringifyArrTail tl)
  | .objNil => "\x7b\x7d".toList
  | .objCons k v tl =>
    '\x7b' :: (('"' :: (k.toList ++ ['"', ':'])) ++ stringifyVal v ++ stringifyObjTail tl)

def stringifyArrTail : Json → Str
  | .arrNil => [']']
  | .arrCons h tl => ',' :: (stringifyVal h ++ stringifyArrTail tl)
  | v => ',' :: (stringifyVal v ++ [']'])

def stringifyObjTail : Json → Str
  | .objNil => ['\x7d']
  | .objCons k v tl =>
    ',' :: (('"' :: (k.toList ++ ['"', ':'])) ++ stringifyVal v ++ stringifyObjTail tl)
  | _ => ['\x7d']
end

/-- `JSON.stringify`: `undefined` at the top level serialises to
`undefined` (so the request gets no body). -/
def jsonStringify : Json → Option Str
  | .undefined => none
  | v => some (stringifyVal v)

-- ─── core.ts: executeWithPluginRetry ─────────────────────────────────────────

/-- The result of one attempt: the call result, the response observed by
this attempt (`none` when the transport threw before a response existed),
and the attempt's observable side effects. -/
abbrev AttemptOut := Except Err SuccessVal × Option Response × Trace

/-- One attempt as a function of the number of attempts already made (the
transport oracle index).  `Except.error` is a plugin-hook exception escaping
the attempt. -/
abbrev AttemptFn := Nat → Except Exn AttemptOut

/-- The `for` loop of `core.ts` `executeWithPluginRetry`, with `fuel`
remaining iterations and `i` the zero-indexed retry number: stop on a
success, a non-retriable error tag, or a `false` from the predicate;
otherwise fire `onRetry`, sleep the computed backoff delay, and re-attempt.
`lastResponse` threads the closure variable of `buildEndpointFn`. -/
def retryGo (attempt : AttemptFn) (shouldRetryFn : Err → Bool)
    (retry : RetryOptions) (plugins : List Plugin) (stableCtx : RequestContext) :
    Nat → Nat → Except Err SuccessVal → Response → Except Exn (Except Err SuccessVal × Response × Trace)
  | 0, _, last, lastResponse => .ok (last, lastResponse, {})
  | fuel + 1, i, last, lastResponse =>
    match last with
    | .ok v => .ok (.ok v, lastResponse, {})
    | .error e =>
      if isRetriableError e = false then .ok (.error e, lastResponse, {})
      else if shouldRetryFn e = false then .ok (.error e, lastResponse, {})
      else
        let stepTrace : Trace :=
          { retryCalls := runOnRetry plugins stableCtx e, sleeps := [getRetryDelay retry i] }
        match attempt (i + 1) with
        | .error exn => .error exn
        | .ok (r, oresp, tr) =>
          match retryGo attempt shouldRetryFn retry plugins stableCtx fuel (i + 1) r (oresp.getD lastResponse) with
          | .error exn => .error exn
          | .ok (r2, resp2, tr2) => .ok (r2, resp2, stepTrace ++ tr ++ tr2)

/-- `core.ts` `executeWithPluginRetry`: run the first attempt, then loop at
most `retry.times` further attempts under the default-true `shouldRetry`
predicate. -/
def executeWithPluginRetry (attempt : AttemptFn) (retry : RetryOptions)
    (plugins : List Plugin) (stableCtx : RequestContext) (lastResponse : Response) :
    Except Exn (Except Err SuccessVal × Response × Trace) :=
  let shouldRetryFn := retry.shouldRetry.getD (fun _ => true)
  match attempt 0 with
  | .error exn => .error exn
  | .ok (r, oresp, tr) =>
    match retryGo attempt shouldRetryFn retry plugins stableCtx retry.times 0 r (oresp.getD lastResponse) with
    | .error exn => .error exn
    | .ok (r2, resp2, tr2) => .ok (r2, resp2, tr ++ tr2)

-- ─── core.ts: buildEndpointFn ────────────────────────────────────────────────

/-- Per-call request options (`types.ts` `RequestOptions`): headers, the
per-call-only `retry` policy, and passthrough fields. -/
structure CallRequestOptions where
  headers : Option HeaderMap := none
  retry : Option RetryOptions := none
  rest : List (String × Json) := []

/-- Client-construction-time configuration reaching `buildEndpointFn`:
base URL, the authentication header, global headers and passthrough options,
the two validation switches, the ordered plugin list, and the error-body
schema machinery. -/
structure ClientConfig where
  baseUrl : String
  authHeader : HeaderMap := []
  globalHeaders : HeaderMap := []
  globalRestOptions : List (String × Json) := []
  validateInput : Bool := true
  validateOutput : Bool := true
  plugins : List Plugin := []
  errorSchema : Option Schema := none
  shouldValidateError : Option (Nat → Bool) := none

/-- The observable outcome of one endpoint call that returned (rather than
threw): the final `Result` and the side-effect trace. -/
structure CallOutcome where
  result : Except Err SuccessVal
  trace : Trace
  deriving DecidableEq, Repr

/-- core.ts line 449 performs the call
`runOnSuccess(plugins, stableCtx, lastResponse, finalResult.value)` — four
arguments to the three-parameter `runOnSuccess`, so JavaScript binds
`data := lastResponse` and discards the fourth argument: the decoded success
value never reaches the hooks. -/
def fireOnSuccess (plugins : List Plugin) (stableCtx : RequestContext)
    (lastResponse : Response) (value : SuccessVal) :
    List (RequestContext × HookVal × HookVal) :=
  runOnSuccess plugins stableCtx (.resp lastResponse)

/-- The body of the `attempt` closure in `buildEndpointFn` (core.ts:398-441):
run `onRequest` over a clone of the stable context, invoke the transport
(`safeFetch` converts a rejection to a `FetchError`), run `onResponse`, and
hand the (possibly plugin-replaced) response to the matching response
handler.  Records the transport invocation in the attempt's trace. -/
def mkAttempt (jsonParse : Str → Option Json) (cfg : ClientConfig)
    (endpoint : Endpoint) (stableCtx : RequestContext)
    (transport : Nat → Except String Response) : AttemptFn := fun fetchIdx =>
  match runOnRequest cfg.plugins stableCtx with
  | .error exn => .error exn
  | .ok ctx =>
    let fetchCall : FetchCall := ⟨ctx.url, ctx.method, ctx.headers, ctx.body, ctx.rest⟩
    match transport fetchIdx with
    | .error msg =>
      .ok (.error (.fetchError msg), none, { fetches := [fetchCall] })
    | .ok rawResp =>
      match runOnResponse cfg.plugins ctx rawResp with
      | .error exn => .error exn
      | .ok response =>
        let res : Except Err SuccessVal :=
          if endpoint.streamEnabled then
            handleStreamResponse jsonParse response endpoint.output
              cfg.validateOutput cfg.errorSchema cfg.shouldValidateError
          else
            (handleJsonResponse jsonParse response
              (endpoint.output.getD Schema.unknown) cfg.validateOutput
              cfg.errorSchema cfg.shouldValidateError).map .json
        .ok (res, some response, { fetches := [fetchCall] })

/-- The four-layer header merge of `buildEndpointFn` (core.ts:358-364):
ascending priority auth < global < endpoint < call, with
`Content-Type: application/json` assigned last. -/
def mergeHeaders (authHeader globalHeaders endpointHeaders callHeaders : HeaderMap) : HeaderMap :=
  authHeader ++ globalHeaders ++ endpointHeaders ++ callHeaders
    ++ [("Content-Type", "application/json")]

/-- The stable per-call context (core.ts:386-392): the init result
decomposed with `??` defaults for `method` and `headers`. -/
def buildStableCtx (endpoint : Endpoint) (mergedHeaders : HeaderMap)
    (initUrl : String) (initOpts : RequestInitR) : RequestContext :=
  { url := initUrl
    method := initOpts.method.getD endpoint.method
    headers := initOpts.headers.getD mergedHeaders
    body := initOpts.body
    rest := initOpts.rest }

/-- The merged header map of one call (core.ts:358-364): the four layers in
ascending priority with the fixed `Content-Type` on top. -/
def mergedHeadersOf (cfg : ClientConfig) (endpoint : Endpoint)
    (callOptions : Option CallRequestOptions) : HeaderMap :=
  mergeHeaders cfg.authHeader cfg.globalHeaders
    ((endpoint.requestOptions.bind (fun o => o.headers)).getD [])
    ((callOptions.bind (fun o => o.headers)).getD [])

/-- The merged `RequestInit` handed to plugin init (core.ts:370-375): method,
merged headers, serialised body (`undefined` for GET), and the merged
non-header passthrough options (global, then endpoint, then call). -/
def initOptionsOf (cfg : ClientConfig) (endpoint : Endpoint)
    (callOptions : Option CallRequestOptions) (validated : ValidatedOpts) : RequestInitR :=
  ⟨some endpoint.method, some (mergedHeadersOf cfg endpoint callOptions),
   (if endpoint.method = .GET then none else jsonStringify validated.input),
   cfg.globalRestOptions ++ ((endpoint.requestOptions.map (fun o => o.rest)).getD [])
     ++ ((callOptions.map (fun o => o.rest)).getD [])⟩

/-- The execution step of `buildEndpointFn` (core.ts:444-446): the attempt,
under the per-call retry policy when one is supplied. -/
def runOf (jsonParse : Str → Option Json) (cfg : ClientConfig) (endpoint : Endpoint)
    (callOptions : Option CallRequestOptions) (stableCtx : RequestContext)
    (transport : Nat → Except String Response) :
    Except Exn (Except Err SuccessVal × Response × Trace) :=
  match callOptions.bind (fun o => o.retry) with
  | some r => executeWithPluginRetry (mkAttempt jsonParse cfg endpoint stableCtx transport)
      r cfg.plugins stableCtx Response.default
  | none =>
    match mkAttempt jsonParse cfg endpoint stableCtx transport 0 with
    | .error exn => .error exn
    | .ok (res, oresp, tr) => .ok (res, oresp.getD Response.default, tr)

/-- The terminal notification (core.ts:448-450): fire `onSuccess` with the
stable context and the last raw response (the decoded value is dropped —
see `fireOnSuccess`), or `onError` with the stable context and the error. -/
def notifyTraceOf (cfg : ClientConfig) (stableCtx : RequestContext)
    (finalResult : Except Err SuccessVal) (lastResponse : Response) : Trace :=
  match finalResult with
  | .ok v => { successCalls := fireOnSuccess cfg.plugins stableCtx lastResponse v }
  | .error e => { errorCalls := runOnError cfg.plugins stableCtx e }

/-- `core.ts` `buildEndpointFn`, applied to one invocation.  The
variable-arity dispatch (core.ts:305-321) that decides which JS argument
slot holds the schema options is resolved before this function: it receives
the two slots already separated.  `Except.error` is an exception escaping
the call across the public boundary. -/
def endpointCall (jsonParse : Str → Option Json) (cfg : ClientConfig)
    (endpoint : Endpoint) (schemaOptions : Option SchemaOpts)
    (callOptions : Option CallRequestOptions)
    (transport : Nat → Except String Response) : Except Exn CallOutcome :=
  -- Validation (bypasses plugins; no network I/O)
  match validateSchemaOptions endpoint schemaOptions cfg.validateInput with
  | .error e => .ok ⟨.error e, {}⟩
  | .ok validated =>
    -- Plugin init (once per invocation, before the first attempt), over the
    -- resolved URL and merged options
    match runPluginInit cfg.plugins
        (buildUrl cfg.baseUrl endpoint.path validated.query validated.params)
        (initOptionsOf cfg endpoint callOptions validated) with
    | .error exn => .error exn
    | .ok (initUrl, initOpts) =>
      -- Execute (with optional retry), then fire onSuccess / onError
      match runOf jsonParse cfg endpoint callOptions
          (buildStableCtx endpoint (mergedHeadersOf cfg endpoint callOptions) initUrl initOpts)
          transport with
      | .error exn => .error exn
      | .ok (finalResult, lastResponse, tr) =>
        .ok ⟨finalResult, tr ++ notifyTraceOf cfg
          (buildStableCtx endpoint (mergedHeadersOf cfg endpoint callOptions) initUrl initOpts)
          finalResult lastResponse⟩

-- ═══ Shared proof infrastructure ═════════════════════════════════════════════

@[simp] theorem Trace.app_fetches (t u : Trace) : (t ++ u).fetches = t.fetches ++ u.fetches := rfl

@[simp] theorem Trace.app_sleeps (t u : Trace) : (t ++ u).sleeps = t.sleeps ++ u.sleeps := rfl

@[simp] theorem Trace.app_successCalls (t u : Trace) :
    (t ++ u).successCalls = t.successCalls ++ u.successCalls := rfl

@[simp] theorem Trace.app_errorCalls (t u : Trace) :
    (t ++ u).errorCalls = t.errorCalls ++ u.errorCalls := rfl

@[simp] theorem Trace.app_retryCalls (t u : Trace) :
    (t ++ u).retryCalls = t.retryCalls ++ u.retryCalls := rfl

/-- A placeholder context for concrete retry-loop runs. -/
def ctx0 : RequestContext := ⟨"", .GET, [], none, []⟩

/-- An attempt oracle that marks each invocation with a distinguishable
transport record, so the number and order of attempt invocations is
observable in the trace. -/
def markerCall (i : Nat) : FetchCall := ⟨"", .GET, [], none, [("attempt", .num i)]⟩

/-- Lift a pure attempt-outcome oracle to an `AttemptFn` that never throws
and marks its invocation index. -/
def markedAttempt (results : Nat → Except Err SuccessVal) : AttemptFn := fun i =>
  .ok (results i, none, { fetches := [markerCall i] })

/-- An attempt that always fails with a retriable `FetchError`. -/
def alwaysFailAttempt : AttemptFn := fun _ =>
  .ok (.error (.fetchError "boom"), none, {})

/-- A parse oracle for concrete runs: parses the text `0` to the number 0. -/
def jpZero : Str → Option Json := fun s =>
  if s = "0".toList then some (.num 0) else none

/-- A schema accepting every value unchanged. -/
def acceptAll : Schema := ⟨fun v => some v⟩

/-- Whether the retry loop continues past this attempt outcome: an error
that is retriable and allowed by the predicate. -/
def continuesArg (sR : Err → Bool) : Except Err SuccessVal → Bool
  | .ok _ => false
  | .error e => isRetriableError e && sR e

-- ═══ C6 ══════════════════════════════════════════════════════════════════════

/-- C6: for base delay `d` and zero-indexed retry number `i`, the computed
delay is `d` (constant), `d * (i + 1)` (linear), and `d * 2 ^ i`
(exponential); with `delayMs = 100` and `times = 3` against an
always-failing attempt, the retry loop sleeps [100, 200, 400]
(exponential), [100, 200, 300] (linear), and [100, 100, 100] (constant). -/
theorem C6_retry_backoff_delays :
    (∀ (t d i : Nat) (sR : Option (Err → Bool)),
        getRetryDelay ⟨t, d, .constant, sR⟩ i = d
      ∧ getRetryDelay ⟨t, d, .linear, sR⟩ i = d * (i + 1)
      ∧ getRetryDelay ⟨t, d, .exponential, sR⟩ i = d * 2 ^ i)
  ∧ (executeWithPluginRetry alwaysFailAttempt ⟨3, 100, .exponential, none⟩ [] ctx0
      Response.default).map (fun x => x.2.2.sleeps) = .ok [100, 200, 400]
  ∧ (executeWithPluginRetry alwaysFailAttempt ⟨3, 100, .linear, none⟩ [] ctx0
      Response.default).map (fun x => x.2.2.sleeps) = .ok [100, 200, 300]
  ∧ (executeWithPluginRetry alwaysFailAttempt ⟨3, 100, .constant, none⟩ [] ctx0
      Response.default).map (fun x => x.2.2.sleeps) = .ok [100, 100, 100] :=
  ⟨fun _ _ _ _ => ⟨rfl, rfl, rfl⟩, by decide, by decide, by decide⟩

-- ═══ C9 ══════════════════════════════════════════════════════════════════════

/-- C9: for an error-status body, with no error schema — or with the
should-validate predicate absent or returning false for the status — the
result is the raw-text-only `ApiError`; otherwise the body is JSON-parsed
and schema-validated with silent fallback to the raw-text-only `ApiError`
on either failure; in every case the `ApiError` carries the status code and
the raw text, and no `ParseError` or validation error is ever produced
(the function's result is always an `ApiError` record).  Includes the
spec's 404 / `"plain text"` / no-schema scenario. -/
theorem C9_error_body_parsing (jp : Str → Option Json) (text : Str) (status : Nat)
    (schema : Schema) (f : Nat → Bool) (es : Option Schema) (sv : Option (Nat → Bool)) :
    (parseErrorResponse jp text status none sv = ⟨status, text, none⟩)
  ∧ (parseErrorResponse jp text status (some schema) none = ⟨status, text, none⟩)
  ∧ (f status = false →
      parseErrorResponse jp text status (some schema) (some f) = ⟨status, text, none⟩)
  ∧ (f status = true →
      parseErrorResponse jp text status (some schema) (some f) =
        match jp text with
        | none => ⟨status, text, none⟩
        | some j =>
          match schema.safeParse j with
          | none => ⟨status, text, none⟩
          | some d => ⟨status, text, some d⟩)
  ∧ ((parseErrorResponse jp text status es sv).statusCode = status
      ∧ (parseErrorResponse jp text status es sv).text = text)
  ∧ parseErrorResponse jp "plain text".toList 404 none none =
      ⟨404, "plain text".toList, none⟩ := by
  refine ⟨rfl, rfl, fun hf => ?_, fun ht => ?_, ?_, rfl⟩
  · simp [parseErrorResponse, hf]
  · rcases hjp : jp text with _ | j
    · simp [parseErrorResponse, ht, hjp]
    · rcases hs : schema.safeParse j with _ | d <;>
        simp [parseErrorResponse, ht, hjp, hs]
  · rcases es with _ | s
    · exact ⟨rfl, rfl⟩
    · rcases sv with _ | g
      · exact ⟨rfl, rfl⟩
      · rcases hgs : g status with _ | _
        · simp [parseErrorResponse, hgs]
        · rcases hjp : jp text with _ | j
          · simp [parseErrorResponse, hgs, hjp]
          · rcases hs : s.safeParse j with _ | d <;>
              simp [parseErrorResponse, hgs, hjp, hs]

/-- Witness for C9 at concrete inputs: a configured predicate returning
false for the status yields the raw-text-only `ApiError`. -/
theorem C9_error_body_parsing_witness :
    parseErrorResponse jpZero "x".toList 500 (some acceptAll) (some (fun s => s < 500)) =
      ⟨500, "x".toList, none⟩ :=
  (C9_error_body_parsing jpZero "x".toList 500 acceptAll (fun s => s < 500)
    none none).2.2.1 (by decide)

-- ═══ C10 ═════════════════════════════════════════════════════════════════════

/-- C10: in the SSE decoder with an output schema configured, a data-line
payload that JSON-parses to a falsy value (`null`, `false`, `0`, `""`) is
discarded before validation — never enqueued — even when the schema accepts
it and output validation is enabled; concretely, a `data: 0` line with an
accept-all schema emits nothing. -/
theorem C10_falsy_stream_values_discarded (jp : Str → Option Json) (schema : Schema)
    (content : Str) (v : Json) (line : Str)
    (hparse : jp content = some v) (hfalsy : v.falsy = true)
    (hsat : schema.safeParse v ≠ none) :
    processStreamChunk jp content (some schema) true = none
  ∧ (extractDataLine line = some content →
      processLine jp (some schema) true line = none)
  ∧ (Json.null.falsy ∧ (Json.bool false).falsy ∧ (Json.num 0).falsy
      ∧ (Json.str []).falsy)
  ∧ decodeStream jpZero (some acceptAll) true ["data: 0\n".toList] = [] := by
  have hp : processStreamChunk jp content (some schema) true = none := by
    simp [processStreamChunk, hparse, hfalsy]
  refine ⟨hp, fun hx => ?_, by decide, by decide⟩
  simp [processLine, hx, hp]

/-- Witness for C10: the payload `0` parses to the falsy number 0, the
accept-all schema accepts it, and the chunk is discarded. -/
theorem C10_falsy_stream_values_discarded_witness :
    processStreamChunk jpZero "0".toList (some acceptAll) true = none :=
  (C10_falsy_stream_values_discarded jpZero acceptAll "0".toList (.num 0)
    "data: 0".toList (by decide) (by decide) (by decide)).1

-- ═══ Retry-loop characterisation (C3, C7) ════════════════════════════════════

/-- Characterisation of the retry loop driven by a pure attempt oracle:
starting at retry index `i` with `fuel` iterations left, the loop performs
some `m ≤ fuel` further attempts `i+1 … i+m`, returns the outcome of attempt
`i+m`, sleeps the backoff delays `i … i+m-1`, every attempt before the last
allowed the loop to continue, and the loop ran out of fuel or stopped at a
non-continuing outcome. -/
theorem retryGo_marked_spec (results : Nat → Except Err SuccessVal) (sR : Err → Bool)
    (retry : RetryOptions) (plugins : List Plugin) (ctx : RequestContext) :
    ∀ (fuel i : Nat) (resp : Response), ∃ (m : Nat) (tr : Trace),
      retryGo (markedAttempt results) sR retry plugins ctx fuel i (results i) resp
        = .ok (results (i + m), resp, tr)
      ∧ tr.fetches = (List.range m).map (fun k => markerCall (i + 1 + k))
      ∧ tr.sleeps = (List.range m).map (fun k => getRetryDelay retry (i + k))
      ∧ m ≤ fuel
      ∧ (∀ k, k < m → continuesArg sR (results (i + k)) = true)
      ∧ (m = fuel ∨ continuesArg sR (results (i + m)) = false) := by
  intro fuel
  induction fuel with
  | zero =>
    intro i resp
    exact ⟨0, {}, rfl, rfl, rfl, le_refl 0, fun k hk => absurd hk (Nat.not_lt_zero k),
      Or.inl rfl⟩
  | succ fuel ih =>
    intro i resp
    rcases hres : results i with e | v
    · -- results i = .error e
      rcases hr : isRetriableError e with _ | _
      · -- non-retriable error: stop with m = 0
        refine ⟨0, {}, ?_, rfl, rfl, Nat.zero_le _, fun k hk => absurd hk (Nat.not_lt_zero k),
          Or.inr (by simp [continuesArg, hres, hr])⟩
        simp [retryGo, hres, hr]
      · rcases hsr : sR e with _ | _
        · -- predicate forbids a retry: stop with m = 0
          refine ⟨0, {}, ?_, rfl, rfl, Nat.zero_le _, fun k hk => absurd hk (Nat.not_lt_zero k),
            Or.inr (by simp [continuesArg, hres, hr, hsr])⟩
          simp [retryGo, hres, hr, hsr]
        · -- retriable and allowed: one more attempt, then recurse
          obtain ⟨m, tr, heq, hf, hs, hle, hcont, hdisj⟩ := ih (i + 1) resp
          refine ⟨m + 1,
            ({ retryCalls := runOnRetry plugins ctx e, sleeps := [getRetryDelay retry i] }
              ++ { fetches := [markerCall (i + 1)] } ++ tr), ?_, ?_, ?_, ?_, ?_, ?_⟩
          · have hidx : i + (m + 1) = i + 1 + m := by omega
            rw [hidx]
            simp only [retryGo, hres, hr, hsr]
            simp only [markedAttempt, Option.getD]
            rw [heq]
            simp
          · simp only [Trace.app_fetches, hf, List.nil_append, List.singleton_append]
            simp only [List.range_succ_eq_map, List.map_cons, List.map_map]
            refine congrArg₂ _ (congrArg markerCall (by omega)) ?_
            exact List.map_congr_left fun k _ => congrArg markerCall (by omega)
          · simp only [Trace.app_sleeps, hs, List.nil_append, List.singleton_append,
              List.append_nil]
            simp only [List.range_succ_eq_map, List.map_cons, List.map_map]
            refine congrArg₂ _ (congrArg (getRetryDelay retry) (by omega)) ?_
            exact List.map_congr_left fun k _ => congrArg (getRetryDelay retry) (by omega)
          · omega
          · intro k hk
            rcases k with _ | k
            · simp [continuesArg, hres, hr, hsr]
            · have hidx : i + (k + 1) = i + 1 + k := by omega
              rw [hidx]
              exact hcont k (by omega)
          · rcases hdisj with h | h
            · exact Or.inl (by omega)
            · exact Or.inr (by rw [show i + (m + 1) = i + 1 + m by omega]; exact h)
    · -- results i = .ok v: the loop stops with m = 0
      refine ⟨0, {}, ?_, rfl, rfl, Nat.zero_le _, fun k hk => absurd hk (Nat.not_lt_zero k),
        Or.inr (by simp [continuesArg, hres])⟩
      simp [retryGo, hres]

/-- Folding the first attempt's marker into the loop's markers gives the
markers of all attempts `0 … n`. -/
theorem markerCall_range (n : Nat) :
    markerCall 0 :: (List.range n).map (fun k => markerCall (0 + 1 + k))
      = (List.range (n + 1)).map markerCall := by
  simp only [List.range_succ_eq_map, List.map_cons, List.map_map]
  refine congrArg₂ _ rfl ?_
  exact List.map_congr_left fun k _ => congrArg markerCall (by omega)

-- ═══ C3 ══════════════════════════════════════════════════════════════════════

/-- C3: with `times = n` and an attempt oracle that always produces a
retriable error, under an absent or always-true `shouldRetry` the attempt is
invoked exactly `n + 1` times (attempts `0 … n`, in order) and the returned
error is the last attempt's; and when `shouldRetry` returns false on the
first (retriable) error, the attempt is invoked exactly once regardless of
the configured `times`. -/
theorem C3_retry_attempt_counts (e : Nat → Err) (retry retry2 : RetryOptions)
    (f0 : Err → Bool)
    (hretriable : ∀ j, isRetriableError (e j) = true)
    (hpred : retry.shouldRetry = none ∨ ∃ f, retry.shouldRetry = some f ∧ ∀ x, f x = true)
    (hpred2 : retry2.shouldRetry = some f0) (hf0 : f0 (e 0) = false) :
    (∃ tr, executeWithPluginRetry (markedAttempt fun j => .error (e j)) retry [] ctx0
        Response.default = .ok (.error (e retry.times), Response.default, tr)
      ∧ tr.fetches = (List.range (retry.times + 1)).map markerCall)
  ∧ (∃ tr, executeWithPluginRetry (markedAttempt fun j => .error (e j)) retry2 [] ctx0
        Response.default = .ok (.error (e 0), Response.default, tr)
      ∧ tr.fetches = [markerCall 0]) := by
  constructor
  · have hSR : ∀ x, (retry.shouldRetry.getD (fun _ => true)) x = true := by
      rcases hpred with h | ⟨f, hf, hall⟩
      · simp [h]
      · simp [hf, hall]
    obtain ⟨m, tr, heq, hfetch, hsleep, hle, hcont, hdisj⟩ :=
      retryGo_marked_spec (fun j => .error (e j)) (retry.shouldRetry.getD (fun _ => true))
        retry [] ctx0 retry.times 0 Response.default
    have hm : m = retry.times := by
      rcases hdisj with h | h
      · exact h
      · exfalso
        have hc : continuesArg (retry.shouldRetry.getD (fun _ => true))
            (Except.error (e (0 + m)) : Except Err SuccessVal) = true := by
          simp [continuesArg, hretriable, hSR]
        rw [hc] at h
        simp at h
    subst hm
    refine ⟨{ fetches := [markerCall 0] } ++ tr, ?_, ?_⟩
    · simp only [executeWithPluginRetry, markedAttempt, Option.getD_none]
      rw [heq]
      simp
    · simp only [Trace.app_fetches, hfetch]
      simpa using markerCall_range retry.times
  · obtain ⟨m, tr, heq, hfetch, hsleep, hle, hcont, hdisj⟩ :=
      retryGo_marked_spec (fun j => .error (e j)) (retry2.shouldRetry.getD (fun _ => true))
        retry2 [] ctx0 retry2.times 0 Response.default
    have hm : m = 0 := by
      by_contra hne
      have h0 : continuesArg (retry2.shouldRetry.getD (fun _ => true))
          (Except.error (e (0 + 0)) : Except Err SuccessVal) = true :=
        hcont 0 (Nat.pos_of_ne_zero hne)
      rw [hpred2] at h0
      simp [continuesArg, hretriable, hf0] at h0
    subst hm
    refine ⟨{ fetches := [markerCall 0] } ++ tr, ?_, ?_⟩
    · simp only [executeWithPluginRetry, markedAttempt, Option.getD_none]
      rw [heq]
    · simp only [Trace.app_fetches, hfetch]
      simp

/-- Witness for C3: a concrete always-failing oracle with `times = 2`
makes 3 attempts under the default predicate, and 1 attempt under a
constant-false predicate with `times = 3`. -/
theorem C3_retry_attempt_counts_witness :
    (∃ tr, executeWithPluginRetry (markedAttempt fun j => .error (.fetchError (toString j)))
        ⟨2, 5, .constant, none⟩ [] ctx0 Response.default
        = .ok (.error (.fetchError "2"), Response.default, tr)
      ∧ tr.fetches = (List.range 3).map markerCall)
  ∧ (∃ tr, executeWithPluginRetry (markedAttempt fun j => .error (.fetchError (toString j)))
        ⟨3, 5, .constant, some (fun _ => false)⟩ [] ctx0 Response.default
        = .ok (.error (.fetchError "0"), Response.default, tr)
      ∧ tr.fetches = [markerCall 0]) :=
  C3_retry_attempt_counts (fun j => .fetchError (toString j))
    ⟨2, 5, .constant, none⟩ ⟨3, 5, .constant, some (fun _ => false)⟩ (fun _ => false)
    (fun _ => rfl) (Or.inl rfl) rfl rfl

-- ═══ C7 ══════════════════════════════════════════════════════════════════════

/-- C7: `InputValidationError`, `OutputValidationError` and `ParseError` are
not retriable, and for every retry policy (any `shouldRetry`) and attempt
oracle, an attempt producing one of them at index `i0` is never followed by
another attempt: the attempts performed are exactly `0 … m-1` for some
`m ≤ i0 + 1`. -/
theorem C7_terminal_errors_never_retried (results : Nat → Except Err SuccessVal)
    (retry : RetryOptions) (i0 : Nat) (msg : String)
    (hterm : results i0 = .error (.parseError msg)
      ∨ results i0 = .error (.outputValidationError msg)
      ∨ results i0 = .error (.inputValidationError msg)) :
    (isRetriableError (.parseError msg) = false
      ∧ isRetriableError (.outputValidationError msg) = false
      ∧ isRetriableError (.inputValidationError msg) = false)
  ∧ ∃ m r tr, executeWithPluginRetry (markedAttempt results) retry [] ctx0 Response.default
        = .ok (r, Response.default, tr)
      ∧ tr.fetches = (List.range m).map markerCall
      ∧ m ≤ i0 + 1 := by
  refine ⟨⟨rfl, rfl, rfl⟩, ?_⟩
  obtain ⟨m, tr, heq, hfetch, hsleep, hle, hcont, hdisj⟩ :=
    retryGo_marked_spec results (retry.shouldRetry.getD (fun _ => true))
      retry [] ctx0 retry.times 0 Response.default
  have hstop : continuesArg (retry.shouldRetry.getD (fun _ => true)) (results i0) = false := by
    rcases hterm with h | h | h <;> simp [continuesArg, h, isRetriableError]
  have hmle : m ≤ i0 := by
    by_contra hgt
    have := hcont i0 (by omega)
    rw [Nat.zero_add, hstop] at this
    exact Bool.false_ne_true this
  refine ⟨m + 1, results (0 + m), { fetches := [markerCall 0] } ++ tr, ?_, ?_, by omega⟩
  · simp only [executeWithPluginRetry, markedAttempt, Option.getD_none]
    rw [heq]
  · simp only [Trace.app_fetches, hfetch]
    simpa using markerCall_range m

/-- Witness for C7: an oracle whose first attempt is a `ParseError` makes
exactly one attempt even with `times = 4`. -/
theorem C7_terminal_errors_never_retried_witness :
    (isRetriableError (.parseError "bad") = false
      ∧ isRetriableError (.outputValidationError "bad") = false
      ∧ isRetriableError (.inputValidationError "bad") = false)
  ∧ ∃ m r tr, executeWithPluginRetry (markedAttempt fun _ => .error (.parseError "bad"))
        ⟨4, 5, .constant, none⟩ [] ctx0 Response.default
        = .ok (r, Response.default, tr)
      ∧ tr.fetches = (List.range m).map markerCall
      ∧ m ≤ 0 + 1 :=
  C7_terminal_errors_never_retried (fun _ => .error (.parseError "bad"))
    ⟨4, 5, .constant, none⟩ 0 "bad" (Or.inl rfl)

-- ═══ SSE decoder characterisation (C8) ═══════════════════════════════════════

/-- Decompose a text into its completed (newline-terminated) lines and the
trailing fragment after the last newline. -/
def splitParts : Str → List Str × Str
  | [] => ([], [])
  | c :: cs =>
    let p := splitParts cs
    if c = '\n' then ([] :: p.1, p.2)
    else
      match p.1 with
      | [] => ([], c :: p.2)
      | l :: ls => ((c :: l) :: ls, p.2)

/-- Unfolding `splitParts` on a cons cell. -/
theorem splitParts_cons (c : Char) (cs : Str) :
    splitParts (c :: cs) =
      if c = '\n' then ([] :: (splitParts cs).1, (splitParts cs).2)
      else
        match (splitParts cs).1 with
        | [] => ([], c :: (splitParts cs).2)
        | l :: ls => ((c :: l) :: ls, (splitParts cs).2) := rfl

/-- Unfolding `splitNl` on a cons cell. -/
theorem splitNl_cons (c : Char) (cs : Str) :
    splitNl (c :: cs) =
      if c = '\n' then [] :: splitNl cs
      else
        match splitNl cs with
        | [] => [[c]]
        | l :: ls => (c :: l) :: ls := rfl

/-- `splitNl` is the completed lines followed by the trailing fragment. -/
theorem splitNl_eq_parts (s : Str) :
    splitNl s = (splitParts s).1 ++ [(splitParts s).2] := by
  induction s with
  | nil => rfl
  | cons c cs ih =>
    rw [splitNl_cons, splitParts_cons]
    by_cases hc : c = '\n'
    · rw [if_pos hc, if_pos hc, ih]
      rfl
    · rw [if_neg hc, if_neg hc]
      rcases hp : (splitParts cs).1 with _ | ⟨l, ls⟩
      · rw [ih, hp]
        rfl
      · rw [ih, hp]
        rfl

/-- Concatenation: the completed lines of `a ++ b` are those of `a` followed
by those of the fragment of `a` glued to `b`; the fragment is likewise. -/
theorem splitParts_append (a b : Str) :
    splitParts (a ++ b)
      = ((splitParts a).1 ++ (splitParts ((splitParts a).2 ++ b)).1,
         (splitParts ((splitParts a).2 ++ b)).2) := by
  induction a with
  | nil => simp [splitParts]
  | cons c cs ih =>
    rw [List.cons_append, splitParts_cons, splitParts_cons, ih]
    by_cases hc : c = '\n'
    · rw [if_pos hc, if_pos hc]
      rfl
    · rw [if_neg hc, if_neg hc]
      rcases hp : (splitParts cs).1 with _ | ⟨l, ls⟩
      · show _ = ((splitParts (c :: ((splitParts cs).2 ++ b))).1,
            (splitParts (c :: ((splitParts cs).2 ++ b))).2)
        rw [splitParts_cons, if_neg hc, Prod.mk.eta]
        rfl
      · rfl

/-- The trailing fragment of a fragment is itself: a fragment holds no
completed line. -/
theorem splitParts_frag (s : Str) :
    splitParts (splitParts s).2 = ([], (splitParts s).2) := by
  have h := splitParts_append s []
  simp only [List.append_nil] at h
  have h1 : (splitParts ((splitParts s).2)).1 = [] := by
    have := congrArg Prod.fst h
    simp only at this
    exact (List.self_eq_append_right.mp this)
  have h2 : (splitParts ((splitParts s).2)).2 = (splitParts s).2 := by
    have := congrArg Prod.snd h
    simp only at this
    exact this.symm
  rw [Prod.ext_iff]
  exact ⟨h1, h2⟩

/-- The decoder state reached after consuming exactly the text `full`:
buffer = trailing fragment, emitted = processed completed lines. -/
def decodedState (jp : Str → Option Json) (os : Option Schema) (vo : Bool)
    (full : Str) : SSEState :=
  ⟨(splitParts full).2, (splitParts full).1.filterMap (processLine jp os vo)⟩

theorem feedChunk_decoded (jp : Str → Option Json) (os : Option Schema) (vo : Bool)
    (full chunk : Str) :
    feedChunk jp os vo (decodedState jp os vo full) chunk
      = decodedState jp os vo (full ++ chunk) := by
  unfold feedChunk decodedState
  rw [splitNl_eq_parts ((splitParts full).2 ++ chunk), splitParts_append full chunk]
  simp [List.getLast?_concat, List.dropLast_concat]

theorem feedAll_decoded (jp : Str → Option Json) (os : Option Schema) (vo : Bool) :
    ∀ (chunks : List Str) (full : Str),
      feedAll jp os vo (decodedState jp os vo full) chunks
        = decodedState jp os vo (full ++ chunks.flatten) := by
  intro chunks
  induction chunks with
  | nil => intro full; simp [feedAll]
  | cons c cs ih =>
    intro full
    show feedAll jp os vo (feedChunk jp os vo (decodedState jp os vo full) c) cs = _
    rw [feedChunk_decoded, ih, List.flatten_cons, List.append_assoc]

/-- A line that trims to nothing is never a data line. -/
theorem processLine_of_trim_empty (jp : Str → Option Json) (os : Option Schema)
    (vo : Bool) (x : Str) (h : strTrim x = []) :
    processLine jp os vo x = none := by
  simp [processLine, extractDataLine, h]

theorem flushStream_decoded (jp : Str → Option Json) (os : Option Schema) (vo : Bool)
    (full : Str) :
    flushStream jp os vo (decodedState jp os vo full)
      = (processLine jp os vo (splitParts full).2).toList := by
  unfold flushStream decodedState
  rcases ht : (strTrim (splitParts full).2).isEmpty with _ | _
  · simp only [ht, Bool.false_eq_true, if_false]
    rw [splitNl_eq_parts, splitParts_frag]
    simp [List.filterMap_cons]
    rcases processLine jp os vo (splitParts full).2 with _ | v <;> simp
  · simp only [ht, if_true]
    rw [processLine_of_trim_empty jp os vo _ (List.isEmpty_iff.mp ht)]
    rfl

/-- All values the stream enqueues are exactly the processed lines of the
full concatenated text. -/
theorem decodeStream_eq (jp : Str → Option Json) (os : Option Schema) (vo : Bool)
    (chunks : List Str) :
    decodeStream jp os vo chunks
      = (splitNl chunks.flatten).filterMap (processLine jp os vo) := by
  unfold decodeStream
  have hinit : SSEState.init = decodedState jp os vo [] := rfl
  rw [hinit, feedAll_decoded, List.nil_append]
  show (decodedState jp os vo chunks.flatten).emitted
      ++ flushStream jp os vo (decodedState jp os vo chunks.flatten) = _
  rw [flushStream_decoded]
  rw [splitNl_eq_parts]
  simp [List.filterMap_append, List.filterMap_cons]
  rcases processLine jp os vo (splitParts chunks.flatten).2 with _ | v <;>
    simp [decodedState]

-- ═══ C8 ══════════════════════════════════════════════════════════════════════

/-- C8: the SSE decoder is chunk-boundary-safe.  After any chunk sequence
the buffer holds exactly the text after the last newline and only completed
lines have been emitted; with the end-of-stream flush the enqueued values
are exactly the processed lines of the whole concatenation; non-data lines,
empty payloads and the `[DONE]` sentinel are discarded; and the chunks
`"data: hel"`, `"lo\n\n"` emit exactly the one value `"hello"`, with
nothing emitted before the fragment is completed. -/
theorem C8_sse_chunk_boundary_safety (jp : Str → Option Json) (os : Option Schema)
    (vo : Bool) (chunks : List Str) (line : Str) :
    ((feedAll jp os vo SSEState.init chunks).buffer = (splitParts chunks.flatten).2
      ∧ (feedAll jp os vo SSEState.init chunks).emitted
          = (splitParts chunks.flatten).1.filterMap (processLine jp os vo))
  ∧ decodeStream jp os vo chunks = (splitNl chunks.flatten).filterMap (processLine jp os vo)
  ∧ ("data:".toList.isPrefixOf (strTrim line) = false → extractDataLine line = none)
  ∧ (strTrim ((strTrim line).drop 5) = [] ∨ strTrim ((strTrim line).drop 5) = "[DONE]".toList →
      extractDataLine line = none)
  ∧ decodeStream jp none vo ["data: hel".toList, "lo\n\n".toList] = [.raw "hello".toList]
  ∧ (feedAll jp none vo SSEState.init ["data: hel".toList]).emitted = [] := by
  refine ⟨?_, decodeStream_eq jp os vo chunks, fun hpre => ?_, fun hpay => ?_, ?_, rfl⟩
  · have h : feedAll jp os vo SSEState.init chunks
        = decodedState jp os vo ([] ++ chunks.flatten) :=
      feedAll_decoded jp os vo chunks []
    rw [List.nil_append] at h
    rw [h]
    exact ⟨rfl, rfl⟩
  · simp only [extractDataLine, hpre]
    simp
  · simp only [extractDataLine]
    split
    · rfl
    · rcases hpay with h | h <;> simp [h]
  · rfl

/-- Witness for C8: a comment line is discarded. -/
theorem C8_sse_chunk_boundary_safety_witness :
    extractDataLine ": keep-alive".toList = none :=
  ((C8_sse_chunk_boundary_safety (fun _ => none) none true [] ": keep-alive".toList).2.2.1)
    (by decide)

-- ═══ C2 ══════════════════════════════════════════════════════════════════════

/-- A validation failure short-circuits the whole call with an empty trace:
no plugin runs and the transport is never invoked. -/
theorem endpointCall_validation_err (jp : Str → Option Json) (cfg : ClientConfig)
    (ep : Endpoint) (so : Option SchemaOpts) (co : Option CallRequestOptions)
    (transport : Nat → Except String Response) (e : Err)
    (h : validateSchemaOptions ep so cfg.validateInput = .error e) :
    endpointCall jp cfg ep so co transport = .ok ⟨.error e, {}⟩ := by
  unfold endpointCall
  rw [h]

/-- C2: with input validation enabled, `input` is validated first (skipped
for the read-only verb GET and when no input schema is declared), then
`params`, then `query`; the first failure ends the call with the matching
`InputValidationError` and an empty trace — in particular zero transport
invocations; and when input validation is skipped and no other schema is
declared, validation always succeeds with the raw values. -/
theorem C2_validation_order_and_short_circuit (jp : Str → Option Json)
    (cfg : ClientConfig) (ep : Endpoint) (so : Option SchemaOpts)
    (co : Option CallRequestOptions) (transport : Nat → Except String Response)
    (s ps qs : Schema) (hv : cfg.validateInput = true) :
    (ep.input = some s → ep.method ≠ .GET → s.safeParse (rawInputOf so) = none →
      endpointCall jp cfg ep so co transport
        = .ok ⟨.error (.inputValidationError "Invalid input"), {}⟩)
  ∧ ((ep.input = none ∨ ep.method = .GET
        ∨ (∃ s0 d, ep.input = some s0 ∧ s0.safeParse (rawInputOf so) = some d)) →
      ep.params = some ps → ps.safeParse (rawParamsOf so) = none →
      endpointCall jp cfg ep so co transport
        = .ok ⟨.error (.inputValidationError "Invalid params"), {}⟩)
  ∧ ((ep.input = none ∨ ep.method = .GET
        ∨ (∃ s0 d, ep.input = some s0 ∧ s0.safeParse (rawInputOf so) = some d)) →
      (ep.params = none ∨ (∃ ps0 d, ep.params = some ps0 ∧ ps0.safeParse (rawParamsOf so) = some d)) →
      ep.query = some qs → qs.safeParse (rawQueryOf so) = none →
      endpointCall jp cfg ep so co transport
        = .ok ⟨.error (.inputValidationError "Invalid query"), {}⟩)
  ∧ ((ep.method = .GET ∨ ep.input = none) → ep.params = none → ep.query = none →
      validateSchemaOptions ep so cfg.validateInput
        = .ok ⟨rawInputOf so, rawParamsOf so, rawQueryOf so⟩)
  ∧ (({} : Trace).fetches = []) := by
  rw [hv]
  refine ⟨fun hin hm hp => ?_, fun hinok hps hp => ?_, fun hinok hpsok hqs hq => ?_,
    fun hskip hps hqs => ?_, rfl⟩
  · refine endpointCall_validation_err jp cfg ep so co transport _ ?_
    rw [hv]
    simp [validateSchemaOptions, hin, hm, hp]
  · refine endpointCall_validation_err jp cfg ep so co transport _ ?_
    rw [hv]
    rcases hinok with h0 | h0 | ⟨s0, d, hs0, hd⟩
    · simp [validateSchemaOptions, h0, hps, hp]
    · cases hx : ep.input <;> simp [validateSchemaOptions, h0, hx, hps, hp]
    · by_cases hm0 : ep.method = Method.GET <;>
        simp [validateSchemaOptions, hs0, hd, hps, hp, hm0]
  · refine endpointCall_validation_err jp cfg ep so co transport _ ?_
    rw [hv]
    rcases hinok with h0 | h0 | ⟨s0, d, hs0, hd⟩ <;>
      rcases hpsok with h1 | ⟨ps0, d1, hps0, hd1⟩
    · simp [validateSchemaOptions, h0, h1, hqs, hq]
    · simp [validateSchemaOptions, h0, hps0, hd1, hqs, hq]
    · cases hx : ep.input <;> simp [validateSchemaOptions, h0, hx, h1, hqs, hq]
    · cases hx : ep.input <;> simp [validateSchemaOptions, h0, hx, hps0, hd1, hqs, hq]
    · by_cases hm0 : ep.method = Method.GET <;>
        simp [validateSchemaOptions, hs0, hd, h1, hqs, hq, hm0]
    · by_cases hm0 : ep.method = Method.GET <;>
        simp [validateSchemaOptions, hs0, hd, hps0, hd1, hqs, hq, hm0]
  · rcases hskip with h0 | h0
    · cases hx : ep.input <;> simp [validateSchemaOptions, h0, hps, hqs, hx]
    · simp [validateSchemaOptions, h0, hps, hqs]

/-- A schema rejecting every value. -/
def rejectAll : Schema := ⟨fun _ => none⟩

/-- Witness for C2: a POST endpoint whose input schema rejects the call's
input returns `InputValidationError` with an empty trace (no transport
invocation). -/
theorem C2_validation_order_and_short_circuit_witness :
    endpointCall jpZero { baseUrl := "http://h" }
      { method := .POST, path := "/x", input := some rejectAll } none none
      (fun _ => .ok Response.default)
      = .ok ⟨.error (.inputValidationError "Invalid input"), {}⟩ :=
  (C2_validation_order_and_short_circuit jpZero { baseUrl := "http://h" }
    { method := .POST, path := "/x", input := some rejectAll } none none
    (fun _ => .ok Response.default) rejectAll acceptAll acceptAll rfl).1
    rfl (by decide) rfl

-- ═══ C5 ══════════════════════════════════════════════════════════════════════

/-- Lookup across a spread: the later map wins. -/
theorem hGet_append (a b : HeaderMap) (k : String) :
    hGet (a ++ b) k = (hGet b k).or (hGet a k) := by
  unfold hGet
  rw [List.filter_append]
  rcases hfb : b.filter (fun kv => kv.1 = k) with _ | ⟨x, xs⟩
  · rw [hfb]
    simp
  · rw [hfb]
    have hne : (x :: xs : List (String × String)) ≠ [] := List.cons_ne_nil x xs
    rw [List.getLast?_append_of_ne_nil _ hne]
    obtain ⟨v, hv⟩ := Option.isSome_iff_exists.mp (List.getLast?_isSome.mpr hne)
    rw [hv]
    rfl

/-- With no plugins, one attempt is: invoke the transport with the stable
context and hand the response to the matching handler. -/
theorem mkAttempt_nil_plugins (jp : Str → Option Json) (cfg : ClientConfig)
    (ep : Endpoint) (stableCtx : RequestContext)
    (transport : Nat → Except String Response) (i : Nat) (hplug : cfg.plugins = []) :
    mkAttempt jp cfg ep stableCtx transport i =
      match transport i with
      | .error msg => .ok (.error (.fetchError msg), none,
          { fetches := [⟨stableCtx.url, stableCtx.method, stableCtx.headers,
              stableCtx.body, stableCtx.rest⟩] })
      | .ok resp => .ok
          ((if ep.streamEnabled then
              handleStreamResponse jp resp ep.output cfg.validateOutput
                cfg.errorSchema cfg.shouldValidateError
            else
              (handleJsonResponse jp resp (ep.output.getD Schema.unknown)
                cfg.validateOutput cfg.errorSchema cfg.shouldValidateError).map .json),
            some resp,
            { fetches := [⟨stableCtx.url, stableCtx.method, stableCtx.headers,
                stableCtx.body, stableCtx.rest⟩] }) := by
  unfold mkAttempt
  rw [hplug]
  rfl

/-- Every transport invocation of a plugin-free attempt carries the stable
context's headers. -/
theorem mkAttempt_fetch_headers (jp : Str → Option Json) (cfg : ClientConfig)
    (ep : Endpoint) (stableCtx : RequestContext)
    (transport : Nat → Except String Response) (hplug : cfg.plugins = []) :
    ∀ i r o tr, mkAttempt jp cfg ep stableCtx transport i = .ok (r, o, tr) →
      ∀ fc ∈ tr.fetches, fc.headers = stableCtx.headers := by
  intro i r o tr h fc hfc
  rw [mkAttempt_nil_plugins jp cfg ep stableCtx transport i hplug] at h
  rcases ht : transport i with msg | resp <;> rw [ht] at h <;>
    injection h with h1
  · have htr := congrArg (fun x => x.2.2.fetches) h1
    simp only at htr
    rw [← htr] at hfc
    simp only [List.mem_singleton] at hfc
    rw [hfc]
  · have htr := congrArg (fun x => x.2.2.fetches) h1
    simp only at htr
    rw [← htr] at hfc
    simp only [List.mem_singleton] at hfc
    rw [hfc]

/-- Fetch records accumulated by the retry loop all come from the attempt
function. -/
theorem retryGo_fetches_pred (attempt : AttemptFn) (sR : Err → Bool)
    (retry : RetryOptions) (plugins : List Plugin) (ctx : RequestContext)
    (P : FetchCall → Prop)
    (hA : ∀ i r o tr, attempt i = .ok (r, o, tr) → ∀ fc ∈ tr.fetches, P fc) :
    ∀ (fuel i : Nat) (last : Except Err SuccessVal) (resp : Response)
      (r : Except Err SuccessVal) (resp2 : Response) (tr : Trace),
      retryGo attempt sR retry plugins ctx fuel i last resp = .ok (r, resp2, tr) →
      ∀ fc ∈ tr.fetches, P fc := by
  intro fuel
  induction fuel with
  | zero =>
    intro i last resp r resp2 tr h fc hfc
    injection h with h1
    have htr := congrArg (fun x => x.2.2.fetches) h1
    simp only at htr
    rw [← htr] at hfc
    exact absurd hfc (List.not_mem_nil fc)
  | succ fuel ih =>
    intro i last resp r resp2 tr h fc hfc
    rcases last with e | v
    · rcases hr : isRetriableError e with _ | _
      · rw [show retryGo attempt sR retry plugins ctx (fuel + 1) i (.error e) resp
            = .ok (.error e, resp, {}) by simp [retryGo, hr]] at h
        injection h with h1
        have htr := congrArg (fun x => x.2.2.fetches) h1
        simp only at htr
        rw [← htr] at hfc
        exact absurd hfc (List.not_mem_nil fc)
      · rcases hsr : sR e with _ | _
        · rw [show retryGo attempt sR retry plugins ctx (fuel + 1) i (.error e) resp
              = .ok (.error e, resp, {}) by simp [retryGo, hr, hsr]] at h
          injection h with h1
          have htr := congrArg (fun x => x.2.2.fetches) h1
          simp only at htr
          rw [← htr] at hfc
          exact absurd hfc (List.not_mem_nil fc)
        · rcases ha : attempt (i + 1) with exn | ⟨r1, o1, t1⟩
          · rw [show retryGo attempt sR retry plugins ctx (fuel + 1) i (.error e) resp
                = .error exn by simp [retryGo, hr, hsr, ha]] at h
            exact absurd h (by simp)
          · rcases hg : retryGo attempt sR retry plugins ctx fuel (i + 1) r1 (o1.getD resp)
                with exn | ⟨r2, rp2, t2⟩
            · rw [show retryGo attempt sR retry plugins ctx (fuel + 1) i (.error e) resp
                  = .error exn by simp [retryGo, hr, hsr, ha, hg]] at h
              exact absurd h (by simp)
            · rw [show retryGo attempt sR retry plugins ctx (fuel + 1) i (.error e) resp
                  = .ok (r2, rp2,
                    ({ retryCalls := runOnRetry plugins ctx e,
                       sleeps := [getRetryDelay retry i] } : Trace) ++ t1 ++ t2)
                  by simp [retryGo, hr, hsr, ha, hg]] at h
              injection h with h1
              have htr := congrArg (fun x => x.2.2.fetches) h1
              simp only [Trace.app_fetches] at htr
              rw [← htr] at hfc
              simp only [List.mem_append] at hfc
              rcases hfc with (hfc | hfc) | hfc
              · exact absurd hfc (List.not_mem_nil fc)
              · exact hA (i + 1) r1 o1 t1 ha fc hfc
              · exact ih (i + 1) r1 (o1.getD resp) r2 rp2 t2 hg fc hfc
    · rw [show retryGo attempt sR retry plugins ctx (fuel + 1) i (.ok v) resp
          = .ok (.ok v, resp, {}) by simp [retryGo]] at h
      injection h with h1
      have htr := congrArg (fun x => x.2.2.fetches) h1
      simp only at htr
      rw [← htr] at hfc
      exact absurd hfc (List.not_mem_nil fc)

/-- Fetch records of the whole retry execution all come from the attempt
function. -/
theorem executeWithPluginRetry_fetches_pred (attempt : AttemptFn)
    (retry : RetryOptions) (plugins : List Plugin) (ctx : RequestContext)
    (lastResponse : Response) (P : FetchCall → Prop)
    (hA : ∀ i r o tr, attempt i = .ok (r, o, tr) → ∀ fc ∈ tr.fetches, P fc)
    (r : Except Err SuccessVal) (resp2 : Response) (tr : Trace)
    (h : executeWithPluginRetry attempt retry plugins ctx lastResponse
      = .ok (r, resp2, tr)) :
    ∀ fc ∈ tr.fetches, P fc := by
  intro fc hfc
  rcases ha : attempt 0 with exn | ⟨r0, o0, t0⟩
  · rw [show executeWithPluginRetry attempt retry plugins ctx lastResponse
        = .error exn by simp [executeWithPluginRetry, ha]] at h
    exact absurd h (by simp)
  · rcases hg : retryGo attempt (retry.shouldRetry.getD fun _ => true) retry plugins ctx
        retry.times 0 r0 (o0.getD lastResponse) with exn | ⟨r2, rp2, t2⟩
    · rw [show executeWithPluginRetry attempt retry plugins ctx lastResponse
          = .error exn by simp [executeWithPluginRetry, ha, hg]] at h
      exact absurd h (by simp)
    · rw [show executeWithPluginRetry attempt retry plugins ctx lastResponse
          = .ok (r2, rp2, t0 ++ t2) by simp [executeWithPluginRetry, ha, hg]] at h
      injection h with h1
      have htr := congrArg (fun x => x.2.2.fetches) h1
      simp only [Trace.app_fetches] at htr
      rw [← htr] at hfc
      simp only [List.mem_append] at hfc
      rcases hfc with hfc | hfc
      · exact hA 0 r0 o0 t0 ha fc hfc
      · exact retryGo_fetches_pred attempt (retry.shouldRetry.getD fun _ => true) retry
          plugins ctx P hA retry.times 0 r0 (o0.getD lastResponse) r2 rp2 t2 hg fc hfc

/-- The terminal notification contributes no transport invocations. -/
theorem notifyTraceOf_fetches (cfg : ClientConfig) (sctx : RequestContext)
    (r : Except Err SuccessVal) (resp : Response) :
    (notifyTraceOf cfg sctx r resp).fetches = [] := by
  cases r <;> rfl

/-- Fetch records of the execution step all come from the attempt. -/
theorem runOf_fetches_pred (jp : Str → Option Json) (cfg : ClientConfig)
    (ep : Endpoint) (co : Option CallRequestOptions) (sctx : RequestContext)
    (transport : Nat → Except String Response) (P : FetchCall → Prop)
    (hA : ∀ i r o tr, mkAttempt jp cfg ep sctx transport i = .ok (r, o, tr) →
      ∀ fc ∈ tr.fetches, P fc)
    (r : Except Err SuccessVal) (resp : Response) (tr : Trace)
    (h : runOf jp cfg ep co sctx transport = .ok (r, resp, tr)) :
    ∀ fc ∈ tr.fetches, P fc := by
  intro fc hfc
  rcases hr : co.bind (fun o => o.retry) with _ | rp
  · rcases ha : mkAttempt jp cfg ep sctx transport 0 with exn | ⟨r0, o0, t0⟩
    · rw [show runOf jp cfg ep co sctx transport = .error exn by
        simp [runOf, hr, ha]] at h
      exact absurd h (by simp)
    · rw [show runOf jp cfg ep co sctx transport
          = .ok (r0, o0.getD Response.default, t0) by simp [runOf, hr, ha]] at h
      injection h with h1
      have htr := congrArg (fun x => x.2.2.fetches) h1
      simp only at htr
      rw [← htr] at hfc
      exact hA 0 r0 o0 t0 ha fc hfc
  · rw [show runOf jp cfg ep co sctx transport
        = executeWithPluginRetry (mkAttempt jp cfg ep sctx transport) rp cfg.plugins
            sctx Response.default by simp [runOf, hr]] at h
    exact executeWithPluginRetry_fetches_pred (mkAttempt jp cfg ep sctx transport)
      rp cfg.plugins sctx Response.default P hA r resp tr h fc hfc

/-- With no plugins, every transport invocation of a call carries exactly
the merged four-layer header map. -/
theorem endpointCall_fetch_headers (jp : Str → Option Json) (cfg : ClientConfig)
    (ep : Endpoint) (so : Option SchemaOpts) (co : Option CallRequestOptions)
    (transport : Nat → Except String Response) (out : CallOutcome)
    (hplug : cfg.plugins = [])
    (hout : endpointCall jp cfg ep so co transport = .ok out) :
    ∀ fc ∈ out.trace.fetches, fc.headers = mergedHeadersOf cfg ep co := by
  intro fc hfc
  rcases hval : validateSchemaOptions ep so cfg.validateInput with e | validated
  · rw [endpointCall_validation_err jp cfg ep so co transport e hval] at hout
    injection hout with h1
    rw [← h1] at hfc
    exact absurd hfc (List.not_mem_nil fc)
  · have hinit : runPluginInit cfg.plugins
        (buildUrl cfg.baseUrl ep.path validated.query validated.params)
        (initOptionsOf cfg ep co validated)
        = .ok (buildUrl cfg.baseUrl ep.path validated.query validated.params,
               initOptionsOf cfg ep co validated) := by
      rw [hplug]
      simp [runPluginInit]
    have hsh : (buildStableCtx ep (mergedHeadersOf cfg ep co)
        (buildUrl cfg.baseUrl ep.path validated.query validated.params)
        (initOptionsOf cfg ep co validated)).headers = mergedHeadersOf cfg ep co := rfl
    rcases hrun : runOf jp cfg ep co
        (buildStableCtx ep (mergedHeadersOf cfg ep co)
          (buildUrl cfg.baseUrl ep.path validated.query validated.params)
          (initOptionsOf cfg ep co validated)) transport with exn | ⟨r, resp, tr⟩
    · rw [show endpointCall jp cfg ep so co transport = .error exn by
        simp [endpointCall, hval, hinit, hrun]] at hout
      exact absurd hout (by simp)
    · rw [show endpointCall jp cfg ep so co transport
          = .ok ⟨r, tr ++ notifyTraceOf cfg
            (buildStableCtx ep (mergedHeadersOf cfg ep co)
              (buildUrl cfg.baseUrl ep.path validated.query validated.params)
              (initOptionsOf cfg ep co validated)) r resp⟩ by
        simp [endpointCall, hval, hinit, hrun]] at hout
      injection hout with h1
      rw [← h1] at hfc
      simp only [Trace.app_fetches, notifyTraceOf_fetches, List.append_nil] at hfc
      have := runOf_fetches_pred jp cfg ep co
        (buildStableCtx ep (mergedHeadersOf cfg ep co)
          (buildUrl cfg.baseUrl ep.path validated.query validated.params)
          (initOptionsOf cfg ep co validated)) transport
        (fun fc => fc.headers = mergedHeadersOf cfg ep co) ?_ r resp tr hrun fc hfc
      · exact this
      · intro i r0 o0 t0 ha fc0 hfc0
        rw [mkAttempt_fetch_headers jp cfg ep _ transport hplug i r0 o0 t0 ha fc0 hfc0]
        exact hsh

/-- Lookup in a one-entry map. -/
theorem hGet_singleton (k0 v0 k : String) :
    hGet [(k0, v0)] k = if k0 = k then some v0 else none := by
  by_cases h : k0 = k <;> simp [hGet, h]

/-- C5: in the merged header map, a key set in several layers resolves to
the per-call value over endpoint over global over auth (ascending
priority); a key present in a single layer reaches the map unmodified;
`Content-Type` is always `application/json` and no layer can override it;
and (with no plugins mutating the context) every transport invocation of a
call carries exactly this merged map.  Includes the spec's
global/endpoint/call collision scenario. -/
theorem C5_header_merge (auth g eh ch : HeaderMap) (k : String)
    (jp : Str → Option Json) (cfg : ClientConfig) (ep : Endpoint)
    (so : Option SchemaOpts) (co : Option CallRequestOptions)
    (transport : Nat → Except String Response) (out : CallOutcome)
    (hplug : cfg.plugins = [])
    (hout : endpointCall jp cfg ep so co transport = .ok out) :
    hGet (mergeHeaders auth g eh ch) "Content-Type" = some "application/json"
  ∧ (k ≠ "Content-Type" →
      hGet (mergeHeaders auth g eh ch) k
        = ((hGet ch k).or ((hGet eh k).or ((hGet g k).or (hGet auth k)))))
  ∧ (∀ fc ∈ out.trace.fetches, fc.headers = mergedHeadersOf cfg ep co)
  ∧ hGet (mergeHeaders [] [("x", "global")] [("x", "endpoint")] [("x", "call")]) "x"
      = some "call"
  ∧ hGet (mergeHeaders [] [("g", "G")] [("e", "E")] []) "g" = some "G"
  ∧ hGet (mergeHeaders [] [("g", "G")] [("e", "E")] []) "e" = some "E" := by
  refine ⟨?_, fun hk => ?_, endpointCall_fetch_headers jp cfg ep so co transport out hplug hout,
    by decide, by decide, by decide⟩
  · simp [mergeHeaders, hGet_append, hGet_singleton]
  · simp [mergeHeaders, hGet_append, hGet_singleton, Ne.symm hk, Option.or_assoc]

/-- Witness for C5: a GET call with a global, an endpoint, and a per-call
`x` header and no plugins sends exactly the merged map (call layer wins,
`Content-Type` appended last). -/
theorem C5_header_merge_witness :
    hGet (mergeHeaders [] [("x", "a")] [] []) "Content-Type" = some "application/json"
  ∧ (∀ fc ∈ ({ fetches := [⟨"http://h/x", .GET,
        [("x", "global"), ("x", "endpoint"), ("x", "call"),
         ("Content-Type", "application/json")], none, []⟩] } : Trace).fetches,
      fc.headers = mergedHeadersOf
        { baseUrl := "http://h", globalHeaders := [("x", "global")] }
        { method := .GET, path := "/x",
          requestOptions := some { headers := some [("x", "endpoint")] } }
        (some { headers := some [("x", "call")] })) :=
  ⟨(C5_header_merge [] [("x", "a")] [] [] "x" jpZero
      { baseUrl := "http://h", globalHeaders := [("x", "global")] }
      { method := .GET, path := "/x",
        requestOptions := some { headers := some [("x", "endpoint")] } }
      none (some { headers := some [("x", "call")] })
      (fun _ => .error "down")
      ⟨.error (.fetchError "down"),
        { fetches := [⟨"http://h/x", .GET,
            [("x", "global"), ("x", "endpoint"), ("x", "call"),
             ("Content-Type", "application/json")], none, []⟩] }⟩
      rfl (by decide)).1,
   (C5_header_merge [] [("x", "a")] [] [] "x" jpZero
      { baseUrl := "http://h", globalHeaders := [("x", "global")] }
      { method := .GET, path := "/x",
        requestOptions := some { headers := some [("x", "endpoint")] } }
      none (some { headers := some [("x", "call")] })
      (fun _ => .error "down")
      ⟨.error (.fetchError "down"),
        { fetches := [⟨"http://h/x", .GET,
            [("x", "global"), ("x", "endpoint"), ("x", "call"),
             ("Content-Type", "application/json")], none, []⟩] }⟩
      rfl (by decide)).2.2.1⟩

-- ═══ C4 ══════════════════════════════════════════════════════════════════════

/-- A plugin whose mutating hooks (`init`, `onRequest`, `onResponse`) never
throw.  Observer hooks (`onSuccess`, `onError`, `onRetry`) are
unconstrained: their exceptions are swallowed. -/
def MutatorsTotal (p : Plugin) : Prop :=
  (∀ f, p.init = some f → ∀ u o, ∃ v, f u o = .ok v)
  ∧ (∀ h, p.hooks.onRequest = some h → ∀ c, ∃ v, h c = .ok v)
  ∧ (∀ h, p.hooks.onResponse = some h → ∀ c r, ∃ v, h c r = .ok v)

theorem runPluginInit_total (plugins : List Plugin)
    (h : ∀ p ∈ plugins, MutatorsTotal p) :
    ∀ u o, ∃ v, runPluginInit plugins u o = .ok v := by
  induction plugins with
  | nil => exact fun u o => ⟨(u, o), rfl⟩
  | cons p ps ih =>
    intro u o
    rcases hi : p.init with _ | f
    · obtain ⟨v, hv⟩ := ih (fun q hq => h q (List.mem_cons_of_mem p hq)) u o
      exact ⟨v, by simp [runPluginInit, hi, hv]⟩
    · obtain ⟨⟨u1, o1⟩, hf⟩ := (h p (List.mem_cons_self p ps)).1 f hi u o
      obtain ⟨v, hv⟩ := ih (fun q hq => h q (List.mem_cons_of_mem p hq)) u1 o1
      exact ⟨v, by simp [runPluginInit, hi, hf, hv]⟩

theorem runOnRequest_total (plugins : List Plugin)
    (h : ∀ p ∈ plugins, MutatorsTotal p) :
    ∀ c, ∃ v, runOnRequest plugins c = .ok v := by
  induction plugins with
  | nil => exact fun c => ⟨c, rfl⟩
  | cons p ps ih =>
    intro c
    rcases hi : p.hooks.onRequest with _ | f
    · obtain ⟨v, hv⟩ := ih (fun q hq => h q (List.mem_cons_of_mem p hq)) c
      exact ⟨v, by simp [runOnRequest, hi, hv]⟩
    · obtain ⟨c1, hf⟩ := (h p (List.mem_cons_self p ps)).2.1 f hi c
      obtain ⟨v, hv⟩ := ih (fun q hq => h q (List.mem_cons_of_mem p hq)) c1
      exact ⟨v, by simp [runOnRequest, hi, hf, hv]⟩

theorem runOnResponse_total (plugins : List Plugin)
    (h : ∀ p ∈ plugins, MutatorsTotal p) :
    ∀ c r, ∃ v, runOnResponse plugins c r = .ok v := by
  induction plugins with
  | nil => exact fun c r => ⟨r, rfl⟩
  | cons p ps ih =>
    intro c r
    rcases hi : p.hooks.onResponse with _ | f
    · obtain ⟨v, hv⟩ := ih (fun q hq => h q (List.mem_cons_of_mem p hq)) c r
      exact ⟨v, by simp [runOnResponse, hi, hv]⟩
    · obtain ⟨r1, hf⟩ := (h p (List.mem_cons_self p ps)).2.2 f hi c r
      obtain ⟨v, hv⟩ := ih (fun q hq => h q (List.mem_cons_of_mem p hq)) c r1
      exact ⟨v, by simp [runOnResponse, hi, hf, hv]⟩

theorem mkAttempt_total (jp : Str → Option Json) (cfg : ClientConfig)
    (ep : Endpoint) (sctx : RequestContext) (transport : Nat → Except String Response)
    (h : ∀ p ∈ cfg.plugins, MutatorsTotal p) :
    ∀ i, ∃ out, mkAttempt jp cfg ep sctx transport i = .ok out := by
  intro i
  obtain ⟨ctx, hctx⟩ := runOnRequest_total cfg.plugins h sctx
  rcases ht : transport i with msg | resp
  · exact ⟨(.error (.fetchError msg), none,
      { fetches := [⟨ctx.url, ctx.method, ctx.headers, ctx.body, ctx.rest⟩] }),
      by simp [mkAttempt, hctx, ht]⟩
  · obtain ⟨resp2, hresp⟩ := runOnResponse_total cfg.plugins h ctx resp
    exact ⟨((if ep.streamEnabled then
        handleStreamResponse jp resp2 ep.output cfg.validateOutput
          cfg.errorSchema cfg.shouldValidateError
      else
        (handleJsonResponse jp resp2 (ep.output.getD Schema.unknown)
          cfg.validateOutput cfg.errorSchema cfg.shouldValidateError).map .json),
      some resp2,
      { fetches := [⟨ctx.url, ctx.method, ctx.headers, ctx.body, ctx.rest⟩] }),
      by simp [mkAttempt, hctx, ht, hresp]⟩

theorem retryGo_total (attempt : AttemptFn) (sR : Err → Bool) (retry : RetryOptions)
    (plugins : List Plugin) (ctx : RequestContext)
    (hA : ∀ i, ∃ out, attempt i = .ok out) :
    ∀ (fuel i : Nat) (last : Except Err SuccessVal) (resp : Response),
      ∃ out, retryGo attempt sR retry plugins ctx fuel i last resp = .ok out := by
  intro fuel
  induction fuel with
  | zero => exact fun i last resp => ⟨(last, resp, {}), rfl⟩
  | succ fuel ih =>
    intro i last resp
    rcases last with e | v
    · rcases hr : isRetriableError e with _ | _
      · exact ⟨(.error e, resp, {}), by simp [retryGo, hr]⟩
      · rcases hsr : sR e with _ | _
        · exact ⟨(.error e, resp, {}), by simp [retryGo, hr, hsr]⟩
        · obtain ⟨⟨r1, o1, t1⟩, ha⟩ := hA (i + 1)
          obtain ⟨⟨r2, rp2, t2⟩, hg⟩ := ih (i + 1) r1 (o1.getD resp)
          exact ⟨(r2, rp2,
            ({ retryCalls := runOnRetry plugins ctx e,
               sleeps := [getRetryDelay retry i] } : Trace) ++ t1 ++ t2),
            by simp [retryGo, hr, hsr, ha, hg]⟩
    · exact ⟨(.ok v, resp, {}), by simp [retryGo]⟩

theorem runOf_total (jp : Str → Option Json) (cfg : ClientConfig) (ep : Endpoint)
    (co : Option CallRequestOptions) (sctx : RequestContext)
    (transport : Nat → Except String Response)
    (h : ∀ p ∈ cfg.plugins, MutatorsTotal p) :
    ∃ out, runOf jp cfg ep co sctx transport = .ok out := by
  have hA := mkAttempt_total jp cfg ep sctx transport h
  rcases hr : co.bind (fun o => o.retry) with _ | rp
  · obtain ⟨⟨r0, o0, t0⟩, ha⟩ := hA 0
    exact ⟨(r0, o0.getD Response.default, t0), by simp [runOf, hr, ha]⟩
  · obtain ⟨⟨r0, o0, t0⟩, ha⟩ := hA 0
    obtain ⟨⟨r2, rp2, t2⟩, hg⟩ := retryGo_total (mkAttempt jp cfg ep sctx transport)
      (rp.shouldRetry.getD fun _ => true) rp cfg.plugins sctx hA rp.times 0 r0
      (o0.getD Response.default)
    exact ⟨(r2, rp2, t0 ++ t2), by simp [runOf, hr, executeWithPluginRetry, ha, hg]⟩

/-- With exception-free mutating hooks, a call never throws: it always
returns a `Result`. -/
theorem endpointCall_total (jp : Str → Option Json) (cfg : ClientConfig)
    (ep : Endpoint) (so : Option SchemaOpts) (co : Option CallRequestOptions)
    (transport : Nat → Except String Response)
    (h : ∀ p ∈ cfg.plugins, MutatorsTotal p) :
    ∃ out, endpointCall jp cfg ep so co transport = .ok out := by
  rcases hval : validateSchemaOptions ep so cfg.validateInput with e | validated
  · exact ⟨⟨.error e, {}⟩, endpointCall_validation_err jp cfg ep so co transport e hval⟩
  · obtain ⟨⟨u1, o1⟩, hinit⟩ := runPluginInit_total cfg.plugins h
      (buildUrl cfg.baseUrl ep.path validated.query validated.params)
      (initOptionsOf cfg ep co validated)
    obtain ⟨⟨r, resp, tr⟩, hrun⟩ := runOf_total jp cfg ep co
      (buildStableCtx ep (mergedHeadersOf cfg ep co) u1 o1) transport h
    exact ⟨⟨r, tr ++ notifyTraceOf cfg
        (buildStableCtx ep (mergedHeadersOf cfg ep co) u1 o1) r resp⟩,
      by simp [endpointCall, hval, hinit, hrun]⟩

/-- The mutating hooks of a plugin — everything the final `Result` can
depend on.  Observer hooks are excluded: their outcomes are discarded. -/
def mutatorsOf (p : Plugin) :=
  (p.init, p.hooks.onRequest, p.hooks.onResponse)

theorem runPluginInit_congr (ps qs : List Plugin)
    (h : ps.map mutatorsOf = qs.map mutatorsOf) :
    ∀ u o, runPluginInit ps u o = runPluginInit qs u o := by
  induction ps generalizing qs with
  | nil =>
    cases qs with
    | nil => exact fun u o => rfl
    | cons q qs => simp at h
  | cons p ps ih =>
    cases qs with
    | nil => simp at h
    | cons q qs =>
      simp only [List.map_cons, List.cons.injEq] at h
      obtain ⟨h1, h2⟩ := h
      have hinit : p.init = q.init := congrArg (fun t => t.1) h1
      intro u o
      simp only [runPluginInit, hinit]
      rcases hi : q.init with _ | f
      · exact ih qs h2 u o
      · show (match f u o with
            | .error exn => (.error exn : Except Exn (String × RequestInitR))
            | .ok (u1, o1) => runPluginInit ps u1 o1)
          = (match f u o with
            | .error exn => .error exn
            | .ok (u1, o1) => runPluginInit qs u1 o1)
        rcases hfu : f u o with exn | ⟨u1, o1⟩
        · rfl
        · exact ih qs h2 u1 o1

theorem runOnRequest_congr (ps qs : List Plugin)
    (h : ps.map mutatorsOf = qs.map mutatorsOf) :
    ∀ c, runOnRequest ps c = runOnRequest qs c := by
  induction ps generalizing qs with
  | nil =>
    cases qs with
    | nil => exact fun c => rfl
    | cons q qs => simp at h
  | cons p ps ih =>
    cases qs with
    | nil => simp at h
    | cons q qs =>
      simp only [List.map_cons, List.cons.injEq] at h
      obtain ⟨h1, h2⟩ := h
      have hreq : p.hooks.onRequest = q.hooks.onRequest := congrArg (fun t => t.2.1) h1
      intro c
      simp only [runOnRequest, hreq]
      rcases hi : q.hooks.onRequest with _ | f
      · exact ih qs h2 c
      · show (match f c with
            | .error exn => (.error exn : Except Exn RequestContext)
            | .ok c1 => runOnRequest ps c1)
          = (match f c with
            | .error exn => .error exn
            | .ok c1 => runOnRequest qs c1)
        rcases hfc : f c with exn | c1
        · rfl
        · exact ih qs h2 c1

theorem runOnResponse_congr (ps qs : List Plugin)
    (h : ps.map mutatorsOf = qs.map mutatorsOf) :
    ∀ c r, runOnResponse ps c r = runOnResponse qs c r := by
  induction ps generalizing qs with
  | nil =>
    cases qs with
    | nil => exact fun c r => rfl
    | cons q qs => simp at h
  | cons p ps ih =>
    cases qs with
    | nil => simp at h
    | cons q qs =>
      simp only [List.map_cons, List.cons.injEq] at h
      obtain ⟨h1, h2⟩ := h
      have hresp : p.hooks.onResponse = q.hooks.onResponse := congrArg (fun t => t.2.2) h1
      intro c r
      simp only [runOnResponse, hresp]
      rcases hi : q.hooks.onResponse with _ | f
      · exact ih qs h2 c r
      · show (match f c r with
            | .error exn => (.error exn : Except Exn Response)
            | .ok r1 => runOnResponse ps c r1)
          = (match f c r with
            | .error exn => .error exn
            | .ok r1 => runOnResponse qs c r1)
        rcases hfr : f c r with exn | r1
        · rfl
        · exact ih qs h2 c r1

theorem mkAttempt_congr (jp : Str → Option Json) (cfg : ClientConfig)
    (ep : Endpoint) (sctx : RequestContext) (transport : Nat → Except String Response)
    (ps qs : List Plugin) (h : ps.map mutatorsOf = qs.map mutatorsOf) :
    mkAttempt jp { cfg with plugins := ps } ep sctx transport
      = mkAttempt jp { cfg with plugins := qs } ep sctx transport := by
  funext i
  simp only [mkAttempt, runOnRequest_congr ps qs h, runOnResponse_congr ps qs h]

theorem retryGo_result_congr (attempt : AttemptFn) (sR : Err → Bool)
    (retry : RetryOptions) (ps qs : List Plugin) (ctx : RequestContext) :
    ∀ (fuel i : Nat) (last : Except Err SuccessVal) (resp : Response),
      (retryGo attempt sR retry ps ctx fuel i last resp).map (fun x => (x.1, x.2.1))
        = (retryGo attempt sR retry qs ctx fuel i last resp).map (fun x => (x.1, x.2.1)) := by
  intro fuel
  induction fuel with
  | zero => exact fun i last resp => rfl
  | succ fuel ih =>
    intro i last resp
    rcases last with e | v
    · rcases hr : isRetriableError e with _ | _
      · simp [retryGo, hr]
      · rcases hsr : sR e with _ | _
        · simp [retryGo, hr, hsr]
        · rcases ha : attempt (i + 1) with exn | ⟨r1, o1, t1⟩
          · simp [retryGo, hr, hsr, ha]
          · have hih := ih (i + 1) r1 (o1.getD resp)
            rcases hg1 : retryGo attempt sR retry ps ctx fuel (i + 1) r1 (o1.getD resp)
              with exn | ⟨r2, rp2, t2⟩ <;>
              rcases hg2 : retryGo attempt sR retry qs ctx fuel (i + 1) r1 (o1.getD resp)
                with exn2 | ⟨r2q, rp2q, t2q⟩ <;>
              rw [hg1, hg2] at hih <;> simp only [Except.map] at hih
            · injection hih with hx
              subst hx
              simp [retryGo, hr, hsr, ha, hg1, hg2, Except.map]
            · exact absurd hih (by simp)
            · exact absurd hih (by simp)
            · injection hih with hx
              have hr2 : r2 = r2q := congrArg (fun t => t.1) hx
              have hrp2 : rp2 = rp2q := congrArg (fun t => t.2) hx
              subst hr2
              subst hrp2
              simp [retryGo, hr, hsr, ha, hg1, hg2, Except.map]
    · simp [retryGo]

theorem executeWithPluginRetry_result_congr (attempt : AttemptFn)
    (retry : RetryOptions) (ps qs : List Plugin) (ctx : RequestContext)
    (lastResponse : Response) :
    (executeWithPluginRetry attempt retry ps ctx lastResponse).map (fun x => (x.1, x.2.1))
      = (executeWithPluginRetry attempt retry qs ctx lastResponse).map (fun x => (x.1, x.2.1)) := by
  rcases ha : attempt 0 with exn | ⟨r0, o0, t0⟩
  · simp [executeWithPluginRetry, ha]
  · have hih := retryGo_result_congr attempt (retry.shouldRetry.getD fun _ => true)
      retry ps qs ctx retry.times 0 r0 (o0.getD lastResponse)
    rcases hg1 : retryGo attempt (retry.shouldRetry.getD fun _ => true) retry ps ctx
        retry.times 0 r0 (o0.getD lastResponse) with exn | ⟨r2, rp2, t2⟩ <;>
      rcases hg2 : retryGo attempt (retry.shouldRetry.getD fun _ => true) retry qs ctx
          retry.times 0 r0 (o0.getD lastResponse) with exn2 | ⟨r2q, rp2q, t2q⟩ <;>
      rw [hg1, hg2] at hih <;> simp only [Except.map] at hih
    · injection hih with hx
      subst hx
      simp [executeWithPluginRetry, ha, hg1, hg2, Except.map]
    · exact absurd hih (by simp)
    · exact absurd hih (by simp)
    · injection hih with hx
      have hr2 : r2 = r2q := congrArg (fun t => t.1) hx
      have hrp2 : rp2 = rp2q := congrArg (fun t => t.2) hx
      subst hr2
      subst hrp2
      simp [executeWithPluginRetry, ha, hg1, hg2, Except.map]

@[simp] theorem initOptionsOf_plugins (cfg : ClientConfig) (ps : List Plugin)
    (ep : Endpoint) (co : Option CallRequestOptions) (validated : ValidatedOpts) :
    initOptionsOf { cfg with plugins := ps } ep co validated
      = initOptionsOf cfg ep co validated := rfl

@[simp] theorem mergedHeadersOf_plugins (cfg : ClientConfig) (ps : List Plugin)
    (ep : Endpoint) (co : Option CallRequestOptions) :
    mergedHeadersOf { cfg with plugins := ps } ep co = mergedHeadersOf cfg ep co := rfl

theorem runOf_result_congr (jp : Str → Option Json) (cfg : ClientConfig)
    (ep : Endpoint) (co : Option CallRequestOptions) (sctx : RequestContext)
    (transport : Nat → Except String Response) (ps qs : List Plugin)
    (h : ps.map mutatorsOf = qs.map mutatorsOf) :
    (runOf jp { cfg with plugins := ps } ep co sctx transport).map (fun x => (x.1, x.2.1))
      = (runOf jp { cfg with plugins := qs } ep co sctx transport).map (fun x => (x.1, x.2.1)) := by
  have hatt := mkAttempt_congr jp cfg ep sctx transport ps qs h
  rcases hr : co.bind (fun o => o.retry) with _ | rp
  · simp only [runOf, hr, hatt]
  · simp only [runOf, hr, hatt]
    exact executeWithPluginRetry_result_congr
      (mkAttempt jp { cfg with plugins := qs } ep sctx transport) rp ps qs sctx
      Response.default

theorem endpointCall_result_congr (jp : Str → Option Json) (cfg : ClientConfig)
    (ep : Endpoint) (so : Option SchemaOpts) (co : Option CallRequestOptions)
    (transport : Nat → Except String Response) (ps qs : List Plugin)
    (h : ps.map mutatorsOf = qs.map mutatorsOf) :
    (endpointCall jp { cfg with plugins := ps } ep so co transport).map (fun o => o.result)
      = (endpointCall jp { cfg with plugins := qs } ep so co transport).map (fun o => o.result) := by
  rcases hval : validateSchemaOptions ep so cfg.validateInput with e | validated
  · rw [endpointCall_validation_err jp { cfg with plugins := ps } ep so co transport e hval,
      endpointCall_validation_err jp { cfg with plugins := qs } ep so co transport e hval]
  · have hinit := runPluginInit_congr ps qs h
      (buildUrl cfg.baseUrl ep.path validated.query validated.params)
      (initOptionsOf cfg ep co validated)
    rcases hi : runPluginInit qs
        (buildUrl cfg.baseUrl ep.path validated.query validated.params)
        (initOptionsOf cfg ep co validated) with exn | ⟨u1, o1⟩
    · rw [show endpointCall jp { cfg with plugins := ps } ep so co transport
          = .error exn by simp [endpointCall, hval, hinit.trans hi],
        show endpointCall jp { cfg with plugins := qs } ep so co transport
          = .error exn by simp [endpointCall, hval, hi]]
    · have hrun := runOf_result_congr jp cfg ep co
        (buildStableCtx ep (mergedHeadersOf cfg ep co) u1 o1) transport ps qs h
      rcases hr1 : runOf jp { cfg with plugins := ps } ep co
          (buildStableCtx ep (mergedHeadersOf cfg ep co) u1 o1) transport
          with exn | ⟨r, resp, tr⟩ <;>
        rcases hr2 : runOf jp { cfg with plugins := qs } ep co
            (buildStableCtx ep (mergedHeadersOf cfg ep co) u1 o1) transport
            with exn2 | ⟨r2, resp2, tr2⟩ <;>
          rw [hr1, hr2] at hrun <;> simp only [Except.map] at hrun
      · injection hrun with hx
        rw [show endpointCall jp { cfg with plugins := ps } ep so co transport
            = .error exn by simp [endpointCall, hval, hinit.trans hi, hr1],
          show endpointCall jp { cfg with plugins := qs } ep so co transport
            = .error exn2 by simp [endpointCall, hval, hi, hr2], hx]
      · exact absurd hrun (by simp)
      · exact absurd hrun (by simp)
      · injection hrun with hx
        have hre : r = r2 := congrArg (fun t => t.1) hx
        subst hre
        rw [show endpointCall jp { cfg with plugins := ps } ep so co transport
            = .ok ⟨r, tr ++ notifyTraceOf { cfg with plugins := ps }
                (buildStableCtx ep (mergedHeadersOf cfg ep co) u1 o1) r resp⟩ by
            simp [endpointCall, hval, hinit.trans hi, hr1],
          show endpointCall jp { cfg with plugins := qs } ep so co transport
            = .ok ⟨r, tr2 ++ notifyTraceOf { cfg with plugins := qs }
                (buildStableCtx ep (mergedHeadersOf cfg ep co) u1 o1) r resp2⟩ by
            simp [endpointCall, hval, hi, hr2]]
        rfl

/-- A 200 response whose body text `0` parses to the number 0. -/
def resp0 : Response := ⟨200, .ok "0".toList, none⟩

/-- A plugin whose `init` throws. -/
def plgThrowInit : Plugin :=
  { id := "t", name := "t", version := "1", init := some (fun _ _ => .error "boom") }

/-- A plugin whose observer hooks all throw (no mutating hooks). -/
def plgThrowObs : Plugin :=
  { id := "o", name := "o", version := "1",
    hooks := { onSuccess := some (fun _ _ _ => .error "obs-boom"),
               onError := some (fun _ _ => .error "obs-boom"),
               onRetry := some (fun _ _ => .error "obs-boom") } }

/-- A plugin with no hooks at all. -/
def plgSilentObs : Plugin := { id := "o", name := "o", version := "1" }

/-- Counterexample to C4 as stated: a plugin whose `init` throws makes the
public endpoint call throw (`runPluginInit` does not catch), while the same
call with no plugins returns a success `Result` — so not every plugin-hook
exception is caught, and a misbehaving plugin can change the outcome from a
returned `Result` to a thrown exception. -/
theorem C4_counterexample :
    endpointCall jpZero { baseUrl := "http://h", plugins := [plgThrowInit] }
      { method := .GET, path := "/x" } none none (fun _ => .ok resp0)
      = .error "boom"
  ∧ (endpointCall jpZero { baseUrl := "http://h" }
      { method := .GET, path := "/x" } none none (fun _ => .ok resp0)).map
      (fun o => o.result)
      = .ok (.ok (.json (.num 0))) := by
  exact ⟨by decide, by decide⟩

/-- C4 (amended): a call whose plugins' mutating hooks (`init`,
`onRequest`, `onResponse`) never throw always returns a `Result` (never
throws); and the returned `Result` does not depend on the observer hooks
(`onSuccess`, `onError`, `onRetry`) at all — in particular exceptions they
throw are caught and discarded and cannot alter the computed result.  An
exception from a mutating hook, however, propagates out of the public call
(see the counterexample). -/
theorem C4_plugin_exception_policy (jp : Str → Option Json) (cfg : ClientConfig)
    (ep : Endpoint) (so : Option SchemaOpts) (co : Option CallRequestOptions)
    (transport : Nat → Except String Response) (ps qs : List Plugin)
    (hmut : ∀ p ∈ cfg.plugins, MutatorsTotal p)
    (hsame : ps.map mutatorsOf = qs.map mutatorsOf) :
    (∃ out, endpointCall jp cfg ep so co transport = .ok out)
  ∧ (endpointCall jp { cfg with plugins := ps } ep so co transport).map (fun o => o.result)
      = (endpointCall jp { cfg with plugins := qs } ep so co transport).map (fun o => o.result) :=
  ⟨endpointCall_total jp cfg ep so co transport hmut,
   endpointCall_result_congr jp cfg ep so co transport ps qs hsame⟩

/-- Witness for C4: with no plugins the call returns; a plugin whose
observer hooks all throw yields the same `Result` as a plugin with no
hooks. -/
theorem C4_plugin_exception_policy_witness :
    (∃ out, endpointCall jpZero { baseUrl := "http://h" }
      { method := .GET, path := "/x" } none none (fun _ => .ok resp0) = .ok out)
  ∧ (endpointCall jpZero { baseUrl := "http://h", plugins := [plgThrowObs] }
      { method := .GET, path := "/x" } none none (fun _ => .ok resp0)).map
      (fun o => o.result)
      = (endpointCall jpZero { baseUrl := "http://h", plugins := [plgSilentObs] }
      { method := .GET, path := "/x" } none none (fun _ => .ok resp0)).map
      (fun o => o.result) :=
  C4_plugin_exception_policy jpZero { baseUrl := "http://h" }
    { method := .GET, path := "/x" } none none (fun _ => .ok resp0)
    [plgThrowObs] [plgSilentObs]
    (fun p hp => absurd hp (List.not_mem_nil p)) rfl

-- ═══ C1 ══════════════════════════════════════════════════════════════════════

/-- A plugin recording its `onSuccess` invocations. -/
def plgRecord : Plugin :=
  { id := "p", name := "p", version := "1.0.0",
    hooks := { onSuccess := some (fun _ _ _ => .ok ()) } }

/-- The stable per-call context of the C1 run. -/
def ctxC1 : RequestContext :=
  ⟨"http://h/x", .GET, [("Content-Type", "application/json")], none, []⟩

/-- C1 (documenting the defect): on a successful call the plugin's
`onSuccess` hook is invoked once with the stable per-call context and, in
its second (`response`) parameter, the last raw response — but its third
(`data`) parameter is `undefined`, not the decoded success value (which
here is the number 0): core.ts:449 passes four arguments to the
three-parameter `runOnSuccess`, so `runOnSuccess` forwards only
`(ctx, lastResponse)` and the value is dropped. -/
theorem C1_onSuccess_drops_value :
    (endpointCall jpZero { baseUrl := "http://h", plugins := [plgRecord] }
        { method := .GET, path := "/x" } none none (fun _ => .ok resp0)).map
        (fun o => (o.result, o.trace.successCalls))
      = .ok (.ok (.json (.num 0)),
          [(ctxC1, HookVal.resp resp0, HookVal.undefined)])
  ∧ HookVal.undefined ≠ HookVal.val (.json (.num 0)) := by
  exact ⟨by decide, by decide⟩
